import Mathlib

/- Formal model of the demand-priority scoring and redistribution engine of the
   Yaumi_Staged backend: backend/core/dynamic_supervisor.py,
   backend/core/cycle_calculator.py, backend/core/priority_calculator.py and
   the recommendation generation in backend/routes/recommended_order.py,
   together with proofs of the specification's testable properties.

   Modelling conventions:
   - dates are integer day numbers (all TrxDate values in the data are
     midnight timestamps, so pandas .days subtraction is exact integer
     subtraction);
   - numeric values are rationals;
   - Python dicts are insertion-ordered association lists;
   - Python floats are modelled exactly by rationals, with the analytic
     primitives exp, log, sqrt, tanh abstracted as an oracle parameter
     carrying only the facts the proofs use (positivity of exp,
     non-negativity of sqrt). -/

namespace Yaumi

/-- Truncation toward zero: the semantics of the Python int() conversion
applied to a finite rational value. -/
def ratTrunc (x : ℚ) : ℤ := if 0 ≤ x then ⌊x⌋ else ⌈x⌉

/-- Update the binding of a key in an insertion-ordered association list:
in place when the key is present, appended at the end otherwise.  This is
Python dict assignment d[k] = v. -/
def dictInsert {α : Type} : List (String × α) → String → α → List (String × α)
  | [], k, v => [(k, v)]
  | (k0, v0) :: rest, k, v =>
    if k0 = k then (k, v) :: rest else (k0, v0) :: dictInsert rest k v

/-! ## Dynamic supervision session (backend/core/dynamic_supervisor.py) -/

/-- ItemRecommendation: a single item recommendation inside a session.
The Python class also carries a field adjustment initialised to 0 that is
never read or written again (adjustments are tracked in the session-level
dict), so it is not modelled. -/
structure ItemRec where
  itemCode : String
  itemName : String
  recommendedQuantity : Int
  tier : String
  probability : ℚ
  urgencyScore : ℚ
deriving Repr, DecidableEq

/-- CustomerRecommendations: the per-customer state of a session. -/
structure CustomerRec where
  customerCode : String
  items : List (String × ItemRec)
  visited : Bool
  actualSales : List (String × Int)
deriving Repr, DecidableEq

/-- UnsoldInfo: the value stored in the unsold_items dict of process_visit. -/
structure UnsoldInfo where
  quantity : Int
  itemName : String
deriving Repr, DecidableEq

/-- One entry of the redistribution details list. -/
structure RedistDetail where
  itemCode : String
  itemName : String
  customerCode : String
  quantity : Int
  tier : String
  probability : ℚ
deriving Repr, DecidableEq

/-- The dict returned by _redistribute_items.  The first two early-return
branches of the Python function omit the items_not_redistributed key, hence
the Option.  The message field concatenates counts exactly as the source
does. -/
structure RedistResult where
  redistributedCount : Nat
  details : List RedistDetail
  status : String
  itemsNotRedistributed : Option (List String)
  message : String
deriving Repr, DecidableEq

/-- One entry of the redistribution log.  The wall-clock timestamp recorded
by the source is outside the model. -/
structure LogEntry where
  customerCode : String
  unsoldItems : List (String × UnsoldInfo)
  redistribution : RedistResult
deriving Repr, DecidableEq

/-- DynamicSupervisionSession state.  The session_id (which embeds a
wall-clock timestamp) and route/date strings play no role in any claim and
are omitted. -/
structure SupervisionSession where
  customerRecommendations : List (String × CustomerRec)
  vanInventory : List (String × Int)
  visitedCustomers : List String
  adjustments : List (String × List (String × Int))
  redistributionLog : List LogEntry
deriving Repr, DecidableEq

/-- The per-customer-per-item cumulative adjustment recorded in a session
(self.adjustments[c].get(i, 0), with a missing customer reading as 0). -/
def adjGet (s : SupervisionSession) (c i : String) : Int :=
  (((s.adjustments.lookup c).getD []).lookup i).getD 0

/-- A fresh session: the state directly after DynamicSupervisionSession.__init__. -/
def freshSession : SupervisionSession :=
  { customerRecommendations := []
    vanInventory := []
    visitedCustomers := []
    adjustments := []
    redistributionLog := [] }

/-- One row of the recommendations dataframe handed to
initialize_from_recommendations.  ProbabilityPercent defaults to 50 and
UrgencyScore to 0.5 when the columns are absent; the model takes the
post-default values as fields. -/
structure SupervisionRow where
  customerCode : String
  itemCode : String
  itemName : String
  recommendedQuantity : Int
  tier : String
  probabilityPercent : ℚ
  urgencyScore : ℚ
deriving Repr, DecidableEq

/-- The ItemRecommendation constructed from one dataframe row by
initialize_from_recommendations (probability = ProbabilityPercent / 100). -/
def itemRecOf (row : SupervisionRow) : ItemRec :=
  { itemCode := row.itemCode
    itemName := row.itemName
    recommendedQuantity := row.recommendedQuantity
    tier := row.tier
    probability := row.probabilityPercent / 100
    urgencyScore := row.urgencyScore }

/-- The body of the per-row loop of initialize_from_recommendations:
create the customer entry if missing, overwrite the item recommendation,
and accumulate the van inventory. -/
def initStep (st : SupervisionSession) (row : SupervisionRow) : SupervisionSession :=
  let cr := (st.customerRecommendations.lookup row.customerCode).getD
      { customerCode := row.customerCode, items := [], visited := false, actualSales := [] }
  let cr2 := { cr with items := dictInsert cr.items row.itemCode (itemRecOf row) }
  let van := (st.vanInventory.lookup row.itemCode).getD 0
  { st with
    customerRecommendations := dictInsert st.customerRecommendations row.customerCode cr2
    vanInventory := dictInsert st.vanInventory row.itemCode (van + row.recommendedQuantity) }

/-- initialize_from_recommendations: fold the row loop, then reset the
adjustments entry of every customer to the empty dict.  (In the source the
adjustment reset iterates over the customer dict and assigns each key; since
the adjustment keys are always exactly the customer keys, this equals
rebuilding the map in customer order.) -/
def initializeFromRecommendations (s : SupervisionSession) (rows : List SupervisionRow) :
    SupervisionSession :=
  let s1 := rows.foldl initStep s
  { s1 with adjustments := s1.customerRecommendations.map (fun p => (p.1, ([] : List (String × Int)))) }

/-- tier_priority.get(tier, 0) in _redistribute_items. -/
def tierPriorityOf (t : String) : Nat :=
  if t = "MUST_STOCK" then 4
  else if t = "SHOULD_STOCK" then 3
  else if t = "CONSIDER" then 2
  else if t = "MONITOR" then 1
  else 0

/-- An entry of the eligible_customers list built per unsold item.  The
source also records the current cumulative adjustment of the recipient; that
value is never read afterwards, so it is not modelled. -/
structure EligibleEntry where
  customerCode : String
  tier : String
  probability : ℚ
  urgencyScore : ℚ
  currentRecommended : Int
deriving Repr, DecidableEq

/-- Strict descending comparison on the sort key
(tier_priority, probability, urgency_score) used by the Python stable sort
with reverse=True. -/
def eligKeyLt (x y : EligibleEntry) : Prop :=
  tierPriorityOf x.tier < tierPriorityOf y.tier ∨
    (tierPriorityOf x.tier = tierPriorityOf y.tier ∧
      (x.probability < y.probability ∨
        (x.probability = y.probability ∧ x.urgencyScore < y.urgencyScore)))

instance : DecidableRel eligKeyLt := by
  intro x y
  unfold eligKeyLt
  infer_instance

/-- eligible_customers.sort(key=(tier, probability, urgency), reverse=True):
a stable descending sort. -/
def sortEligible (l : List EligibleEntry) : List EligibleEntry :=
  List.insertionSort (fun a b => eligKeyLt b a) l

/-- The unvisited customers of a session, in customer-dict order. -/
def unvisitedOf (s : SupervisionSession) : List String :=
  (s.customerRecommendations.map Prod.fst).filter (fun c => c ∉ s.visitedCustomers)

/-- The eligible recipients for one unsold item: unvisited customers whose
recommendation set already contains the item, in unvisited order, with the
fields the sort and the allocation read. -/
def eligibleFor (s : SupervisionSession) (unvisited : List String) (itemCode : String) :
    List EligibleEntry :=
  unvisited.filterMap (fun c =>
    match s.customerRecommendations.lookup c with
    | none => none
    | some cr =>
      match cr.items.lookup itemCode with
      | none => none
      | some ir =>
        some { customerCode := c
               tier := ir.tier
               probability := ir.probability
               urgencyScore := ir.urgencyScore
               currentRecommended := ir.recommendedQuantity })

/-- Record one redistribution delta in the session adjustments
(create-at-0 then += redistribute_qty). -/
def addAdjustment (s : SupervisionSession) (c item : String) (q : Int) : SupervisionSession :=
  let inner := (s.adjustments.lookup c).getD []
  let cur := (inner.lookup item).getD 0
  { s with adjustments := dictInsert s.adjustments c (dictInsert inner item (cur + q)) }

/-- Python int(x * 0.5) for an integer x: exact halving truncated toward
zero, which for integers is t-division by 2. -/
def halfTrunc (x : Int) : Int := Int.tdiv x 2

/-- The body of the per-recipient loop of _redistribute_items (the break on
an exhausted remainder is modelled by a skip, which is equivalent because
the remainder never increases). -/
def redistStep (itemCode itemName : String)
    (acc : SupervisionSession × List RedistDetail × Int) (cust : EligibleEntry) :
    SupervisionSession × List RedistDetail × Int :=
  let st := acc.1
  let ds := acc.2.1
  let remaining := acc.2.2
  if remaining ≤ 0 then acc
  else
    let maxIncrease := max 1 (halfTrunc cust.currentRecommended)
    let redistributeQty := min remaining maxIncrease
    let st2 := addAdjustment st cust.customerCode itemCode redistributeQty
    (st2,
      ds ++ [{ itemCode := itemCode
               itemName := itemName
               customerCode := cust.customerCode
               quantity := redistributeQty
               tier := cust.tier
               probability := cust.probability }],
      remaining - redistributeQty)

/-- The per-unsold-item body of _redistribute_items: build and sort the
eligible list, then distribute to at most the top 5 recipients. -/
def redistItemStep (unvisited : List String)
    (acc : SupervisionSession × List RedistDetail) (itemPair : String × UnsoldInfo) :
    SupervisionSession × List RedistDetail :=
  let itemCode := itemPair.1
  let info := itemPair.2
  let eligible := eligibleFor acc.1 unvisited itemCode
  if eligible.isEmpty then acc
  else
    let sorted := sortEligible eligible
    let r := (sorted.take 5).foldl (redistStep itemCode info.itemName) (acc.1, acc.2, info.quantity)
    (r.1, r.2.1)

/-- _redistribute_items. -/
def redistributeItems (s : SupervisionSession) (unsoldItems : List (String × UnsoldInfo)) :
    SupervisionSession × RedistResult :=
  if unsoldItems.isEmpty then
    (s, { redistributedCount := 0
          details := []
          status := "nothing_to_redistribute"
          itemsNotRedistributed := none
          message := "" })
  else
    let unvisited := unvisitedOf s
    if unvisited.isEmpty then
      (s, { redistributedCount := 0
            details := []
            status := "no_remaining_customers"
            itemsNotRedistributed := none
            message := "No remaining customers to redistribute items to" })
    else
      let r := unsoldItems.foldl (redistItemStep unvisited) (s, [])
      let details := r.2
      let itemsNot := (unsoldItems.filter
        (fun p => ¬ details.any (fun d => d.itemCode = p.1))).map Prod.fst
      (r.1,
        { redistributedCount := details.length
          details := details
          status := if itemsNot.isEmpty then "success" else "partial"
          itemsNotRedistributed := some itemsNot
          message := "Redistributed " ++ toString details.length ++ " items successfully" ++
            (if itemsNot.isEmpty then ""
             else ", " ++ toString itemsNot.length ++ " items could not be redistributed") })

/-- The result dict of process_visit. -/
inductive VisitResult where
  | failure (msg : String)
  | success (customerCode : String) (unsoldItems : List (String × UnsoldInfo))
      (redistribution : RedistResult) (adjustments : List (String × List (String × Int)))
deriving Repr, DecidableEq

/-- process_visit. -/
def processVisit (s : SupervisionSession) (customerCode : String)
    (actualSales : List (String × Int)) : SupervisionSession × VisitResult :=
  match s.customerRecommendations.lookup customerCode with
  | none => (s, .failure ("Customer " ++ customerCode ++ " not found in recommendations"))
  | some cr =>
    if customerCode ∈ s.visitedCustomers then
      (s, .failure ("Customer " ++ customerCode ++ " already visited"))
    else
      let cr2 := { cr with visited := true, actualSales := actualSales }
      let s1 := { s with
        visitedCustomers := s.visitedCustomers ++ [customerCode]
        customerRecommendations := dictInsert s.customerRecommendations customerCode cr2 }
      let custAdj := (s1.adjustments.lookup customerCode).getD []
      let unsold : List (String × UnsoldInfo) := cr.items.filterMap (fun p =>
        let itemCode := p.1
        let itemRec := p.2
        let actualQty := (actualSales.lookup itemCode).getD 0
        let recommendedQty := itemRec.recommendedQuantity + ((custAdj.lookup itemCode).getD 0)
        if actualQty < recommendedQty then
          some (itemCode, { quantity := recommendedQty - actualQty, itemName := itemRec.itemName })
        else none)
      let r := redistributeItems s1 unsold
      let s2 := r.1
      let s3 := { s2 with redistributionLog := s2.redistributionLog ++
        [{ customerCode := customerCode, unsoldItems := unsold, redistribution := r.2 }] }
      (s3, .success customerCode unsold r.2 s3.adjustments)

/-- The recommended quantity currently stored in a session for a
customer-item pair (0 when the pair is absent). -/
def recOf (s : SupervisionSession) (c i : String) : Int :=
  match s.customerRecommendations.lookup c with
  | none => 0
  | some cr =>
    match cr.items.lookup i with
    | none => 0
    | some ir => ir.recommendedQuantity

/-- The van inventory recorded for an item (0 when absent). -/
def vanGet (s : SupervisionSession) (i : String) : Int :=
  (s.vanInventory.lookup i).getD 0

/-- Total recommended quantity carried by a recommendation batch for one
item (what one pass of the van-inventory accumulation adds). -/
def sumQtyFor (rows : List SupervisionRow) (i : String) : Int :=
  ((rows.filter (fun r => r.itemCode = i)).map SupervisionRow.recommendedQuantity).sum

/-! ## Analytic oracle

The numeric core uses numpy's exp, log, sqrt and tanh.  Those are the only
non-rational operations in the source; they are abstracted as an oracle
parameter carrying exactly the facts the proofs rely on (positivity of exp
and non-negativity of sqrt), while everything else is exact rational
arithmetic. -/

structure AnalyticOracle where
  exp : ℚ → ℚ
  log : ℚ → ℚ
  sqrt : ℚ → ℚ
  tanh : ℚ → ℚ
  exp_pos : ∀ x, 0 < exp x
  sqrt_nonneg : ∀ x, 0 ≤ sqrt x

/-- A trivial oracle used to instantiate witnesses and counterexamples. -/
def unitOracle : AnalyticOracle :=
  { exp := fun _ => 1
    log := fun _ => 0
    sqrt := fun _ => 0
    tanh := fun _ => 0
    exp_pos := fun _ => one_pos
    sqrt_nonneg := fun _ => le_refl 0 }

/-! ## numpy/pandas numeric helpers -/

/-- Ascending sort of rationals (numpy sorts before percentile/median). -/
def sortRat (l : List ℚ) : List ℚ := List.insertionSort (fun a b => a ≤ b) l

/-- numpy mean (callers guard against empty input). -/
def npMean (l : List ℚ) : ℚ := l.sum / l.length

/-- numpy percentile with the default linear interpolation. -/
def npPercentile (l : List ℚ) (q : ℚ) : ℚ :=
  let s := sortRat l
  let n := s.length
  if n = 0 then 0
  else
    let pos : ℚ := ((n : ℚ) - 1) * q / 100
    let i : ℤ := ⌊pos⌋
    let lo := s.getD i.toNat 0
    let hi := s.getD (i.toNat + 1) lo
    lo + (pos - (i : ℚ)) * (hi - lo)

/-- numpy/pandas median = 50th percentile. -/
def npMedian (l : List ℚ) : ℚ := npPercentile l 50

/-- numpy population variance (ddof = 0). -/
def npVariance (l : List ℚ) : ℚ := npMean (l.map (fun x => (x - npMean l) ^ 2))

/-- numpy standard deviation, via the oracle square root. -/
def npStd (O : AnalyticOracle) (l : List ℚ) : ℚ := O.sqrt (npVariance l)

/-- numpy average of values with (already paired) weights. -/
def npAverage (values weights : List ℚ) : ℚ :=
  ((values.zip weights).map (fun p => p.1 * p.2)).sum / weights.sum

/-- numpy linspace (inclusive endpoints; a single point for n <= 1). -/
def npLinspace (a b : ℚ) (n : ℕ) : List ℚ :=
  if n ≤ 1 then [a]
  else (List.range n).map (fun (i : ℕ) => a + (b - a) * (i : ℚ) / ((n : ℚ) - 1))

/-- Maximum of an integer list (callers guard against empty input). -/
def listMax (l : List ℤ) : ℤ := l.foldl max (l.headD 0)

/-- Minimum of an integer list (callers guard against empty input). -/
def listMinInt (l : List ℤ) : ℤ := l.foldl min (l.headD 0)

/-- Maximum of a rational list (callers guard against empty input). -/
def listMaxRat (l : List ℚ) : ℚ := l.foldl max (l.headD 0)

/-! ## Purchase events

One row of the historical sales data: TrxDate (an integer day number),
CustomerCode, ItemCode and TotalQuantity. -/

structure Event where
  trxDate : ℤ
  customerCode : String
  itemCode : String
  totalQuantity : ℚ
deriving Repr, DecidableEq

/-- Number of distinct purchase dates in a history. -/
def distinctDates (h : List Event) : ℕ := ((h.map Event.trxDate).dedup).length

/-! ## Cycle calculator (backend/core/cycle_calculator.py) -/

/-- _extract_purchase_gaps: positive day gaps between consecutive distinct
purchase dates. -/
def extractPurchaseGaps (h : List Event) : List ℚ :=
  if h.length < 2 then []
  else
    let dates := (h.map Event.trxDate).dedup
    if dates.length < 2 then []
    else
      let sortedDates := List.insertionSort (fun a b => a ≤ b) dates
      (sortedDates.zip sortedDates.tail).filterMap (fun p =>
        let gap := p.2 - p.1
        if 0 < gap then some ((gap : ℤ) : ℚ) else none)

/-- The pattern-analysis dict.  The empty-gaps branch of the source returns
a dict without the mean_gap, median_gap and variability keys and never
reads them on that branch; the model fills neutral values there. -/
structure PatternInfo where
  type : String
  consistency : ℚ
  baseCycle : ℚ
  meanGap : ℚ
  medianGap : ℚ
  variability : ℚ
deriving Repr, DecidableEq

/-- _remove_outliers_dynamically: IQR with adaptive multiplier, falling back
to MAD with adaptive threshold, falling back to the raw gaps.  The source's
early return after a successful IQR pass is flattened into one conditional:
the IQR result is kept when the IQR is positive and the retention check
passes, otherwise control falls through to the MAD method. -/
def removeOutliersDynamically (O : AnalyticOracle) (gaps : List ℚ) : List ℚ :=
  if gaps.length < 3 then gaps
  else
    let q1 := npPercentile gaps 25
    let q3 := npPercentile gaps 75
    let iqr := q3 - q1
    let med := npMedian gaps
    let dataSpread := if 0 < med then (q3 - q1) / med else 1
    let iqrMultiplier := min 2 (max 1.2 (1.5 - dataSpread * 0.3))
    let lowerBound := max 1 (q1 - iqrMultiplier * iqr)
    let upperBound := q3 + iqrMultiplier * iqr
    let cleanIQR := gaps.filter (fun g => lowerBound ≤ g ∧ g ≤ upperBound)
    if 0 < iqr ∧ (gaps.length : ℚ) * 0.6 ≤ (cleanIQR.length : ℚ) then cleanIQR
    else
      let mad := npMedian (gaps.map (fun g => |g - med|))
      if 0 < mad then
        let cv := if 0 < npMean gaps then npStd O gaps / npMean gaps else 1
        let madThreshold := min 4 (max 2 (3 - cv))
        let cleanMAD := gaps.filter (fun g => |g - med| ≤ madThreshold * mad)
        if cleanMAD.isEmpty then gaps else cleanMAD
      else gaps

/-- _classify_pattern_dynamically. -/
def classifyPatternDynamically (gaps : List ℚ) (consistency : ℚ) : String :=
  let meanGap := npMean gaps
  if 0.7 < consistency then
    if meanGap ≤ npPercentile gaps 20 then "frequent"
    else if meanGap ≤ npPercentile gaps 80 then "regular"
    else "occasional"
  else "irregular"

/-- _analyze_purchase_pattern. -/
def analyzePurchasePattern (O : AnalyticOracle) (gaps : List ℚ) : PatternInfo :=
  if gaps.isEmpty then
    { type := "unknown", consistency := 0, baseCycle := 30, meanGap := 0, medianGap := 0,
      variability := 1 }
  else
    let meanGap := npMean gaps
    let stdGap := npStd O gaps
    let medianGap := npMedian gaps
    let consistency := if 0 < meanGap then 1 - min 1 (stdGap / meanGap) else 0
    let baseCycle :=
      if 0.7 < consistency then medianGap
      else if 0.4 < consistency then 0.6 * medianGap + 0.4 * meanGap
      else meanGap
    { type := classifyPatternDynamically gaps consistency
      consistency := consistency
      baseCycle := baseCycle
      meanGap := meanGap
      medianGap := medianGap
      variability := if 0 < meanGap then stdGap / meanGap else 1 }

/-- The recency parameters of _get_adaptive_recency_params (the source
names the second field window_ratio). -/
structure RecencyParams where
  strength : ℚ
  windowFrac : ℚ
deriving Repr, DecidableEq

/-- _get_adaptive_recency_params. -/
def getAdaptiveRecencyParams (p : PatternInfo) : RecencyParams :=
  let sw : ℚ × ℚ :=
    if 0.8 < p.consistency then (0.2 + 0.2 * (1 - p.consistency), 0.3)
    else if 0.5 < p.consistency then (0.4 + 0.3 * p.variability, 0.4)
    else (0.6 + 0.3 * p.variability, 0.5 + 0.2 * p.variability)
  { strength := min 0.9 sw.1, windowFrac := min 0.8 sw.2 }

/-- _apply_adaptive_weighting: exponential recency weights over the trailing
window (int() of a non-negative value is its floor). -/
def applyAdaptiveWeighting (O : AnalyticOracle) (gaps : List ℚ) (rp : RecencyParams) : ℚ :=
  let windowSize := max 2 (ratTrunc ((gaps.length : ℚ) * rp.windowFrac)).toNat
  let recentGaps := gaps.drop (gaps.length - windowSize)
  if recentGaps.length = 1 then recentGaps.headD 0
  else
    let weights := (npLinspace 0 (rp.strength * 2) recentGaps.length).map O.exp
    let wsum := weights.sum
    let normWeights := weights.map (fun w => w / wsum)
    npAverage recentGaps normWeights

/-- _calculate_dynamic_confidence. -/
def calculateDynamicConfidence (O : AnalyticOracle) (gaps : List ℚ) (p : PatternInfo) : ℚ :=
  let dataAmountScore := min 0.4 (O.log ((gaps.length : ℚ) + 1) * 0.15)
  let consistencyScore := p.consistency * 0.3
  let patternBonus : ℚ :=
    if p.type = "frequent" then 0.2
    else if p.type = "regular" then 0.25
    else if p.type = "occasional" then 0.15
    else if p.type = "irregular" then 0.05
    else 0.1
  min 0.95 (0.3 + dataAmountScore + consistencyScore + patternBonus)

/-- _calculate_adaptive_cycle. -/
def calculateAdaptiveCycle (O : AnalyticOracle) (gaps : List ℚ) (p : PatternInfo) : ℚ × ℚ :=
  if gaps.length ≤ 2 then (p.baseCycle, 0.3 + 0.1 * (gaps.length : ℚ))
  else
    let rp := getAdaptiveRecencyParams p
    let weightedCycle := applyAdaptiveWeighting O gaps rp
    let finalCycle := p.consistency * p.baseCycle + (1 - p.consistency) * weightedCycle
    (finalCycle, calculateDynamicConfidence O gaps p)

/-- _get_fallback_cycle. -/
def getFallbackCycle : ℚ := 30

/-- calculate_cycle: the main entry point, returning (cycle_days,
confidence). -/
def calculateCycle (O : AnalyticOracle) (itemHistory : List Event) : ℚ × ℚ :=
  if itemHistory.isEmpty then (getFallbackCycle, 0)
  else
    let gaps := extractPurchaseGaps itemHistory
    if gaps.isEmpty then (getFallbackCycle, 0)
    else
      let cleanGaps := removeOutliersDynamically O gaps
      if cleanGaps.isEmpty then (npMedian gaps, 0.1)
      else calculateAdaptiveCycle O cleanGaps (analyzePurchasePattern O cleanGaps)

/-- _calculate_decay_rate. -/
def calculateDecayRate (avgCycle consistency : ℚ) (purchaseCount : ℕ) : ℚ :=
  let baseRate : ℚ := 0.5
  let cycleModifier : ℚ :=
    if avgCycle ≤ 7 ∧ 0.7 < consistency then 1.5
    else if avgCycle ≤ 30 then 1
    else 0.7
  let historyModifier := min 1.3 (0.7 + (purchaseCount : ℚ) / 10)
  let consistencyModifier := 0.7 + consistency * 0.6
  baseRate * cycleModifier * historyModifier * consistencyModifier

/-- _calculate_floor_value. -/
def calculateFloorValue (consistency : ℚ) (purchaseCount : ℕ) : ℚ :=
  min 0.2 (0.05 + (1 - consistency) * 0.1 + min 0.05 ((purchaseCount : ℚ) / 100))

/-- The decay-parameter dict of _calculate_adaptive_thresholds. -/
structure DecayParams where
  rate : ℚ
  floorVal : ℚ
  curveType : String
deriving Repr, DecidableEq

/-- _calculate_adaptive_thresholds.  (The source also computes history_span
and a variability default, neither of which is used afterwards.) -/
def calculateAdaptiveThresholds (avgCycle _confidence : ℚ) (patternInfo : Option PatternInfo)
    (itemHistory : List Event) : ℚ × DecayParams :=
  let purchaseCount := itemHistory.length
  let consistency : ℚ :=
    match patternInfo with
    | some p => p.consistency
    | none => 0.5
  let basePeak : ℚ := 2
  let consistencyFactor := 0.5 + consistency
  let cycleFactor : ℚ :=
    if avgCycle ≤ 7 then 0.9
    else if avgCycle ≤ 14 then 1
    else if avgCycle ≤ 30 then 1.1
    else 1.2
  let historyFactor := min 1.2 (0.8 + (purchaseCount : ℚ) / 20)
  (basePeak * consistencyFactor * cycleFactor * historyFactor,
    { rate := calculateDecayRate avgCycle consistency purchaseCount
      floorVal := calculateFloorValue consistency purchaseCount
      curveType := if 0.6 < consistency then "sigmoid" else "exponential" })

/-- _calculate_urgency_score: the three-segment S-curve before the peak. -/
def calculateUrgencyScore (cyclePosition peakThreshold : ℚ) : ℚ :=
  let normalized := min 1 (cyclePosition / peakThreshold)
  if normalized ≤ 0.3 then 0.1 + 0.2 * (normalized / 0.3)
  else if normalized ≤ 0.7 then 0.3 + 0.4 * ((normalized - 0.3) / 0.4)
  else 0.7 + 0.3 * ((normalized - 0.7) / 0.3)

/-- _calculate_decayed_score: sigmoid or exponential decay past the peak,
floored.  (The source also receives pattern_info and never uses it.) -/
def calculateDecayedScore (O : AnalyticOracle) (cyclePosition peakThreshold : ℚ)
    (dp : DecayParams) : ℚ :=
  let excess := cyclePosition - peakThreshold
  let peakScore : ℚ := 1
  let decayFactor :=
    if dp.curveType = "sigmoid" then 1 / (1 + O.exp (dp.rate * excess))
    else O.exp (-(dp.rate * excess))
  max dp.floorVal (peakScore * decayFactor)

/-- calculate_timing_need.  An empty item history yields 0.5 before the
reference-date check; a missing target date on a non-empty history raises a
ValueError, modelled as an error result.  The customer_history argument is
accepted and ignored, as in the source. -/
def calculateTimingNeed (O : AnalyticOracle) (itemHistory : List Event)
    (_customerHistory : Option (List Event)) (targetDate : Option ℤ) : Except String ℚ :=
  if itemHistory.isEmpty then .ok 0.5
  else
    match targetDate with
    | none => .error "target_date is required for deterministic timing calculations"
    | some target =>
      let lastPurchase := listMax (itemHistory.map Event.trxDate)
      let daysSince : ℤ := target - lastPurchase
      let cc := calculateCycle O itemHistory
      let cyclePosition := (daysSince : ℚ) / max cc.1 1
      let gaps := extractPurchaseGaps itemHistory
      let patternInfo := if gaps.isEmpty then none else some (analyzePurchasePattern O gaps)
      let tp := calculateAdaptiveThresholds cc.1 cc.2 patternInfo itemHistory
      if cyclePosition ≤ tp.1 then .ok (calculateUrgencyScore cyclePosition tp.1)
      else .ok (calculateDecayedScore O cyclePosition tp.1 tp.2)

/-- calculate_time_weighted_value.  The value column is always
TotalQuantity at every call site, so the column name parameter is dropped;
the decay_type parameter is kept.  A missing reference date defaults to the
last purchase date plus one day (this function does not raise).  The first
two adaptive branch conditions contain a Python operator-precedence quirk:
with no purchase gaps the condition evaluates the truthy literal, so every
row then takes weight 1; the model reproduces that behaviour.  The NaN/Inf
checks of the source cannot fire over exact rationals, leaving the
non-positivity check. -/
def calculateTimeWeightedValue (O : AnalyticOracle) (history : List Event)
    (decayType : String) (referenceDate : Option ℤ) : ℚ × ℚ :=
  if history.isEmpty then (0, 0)
  else
    let ref : ℤ := referenceDate.getD (listMax (history.map Event.trxDate) + 1)
    let purchaseGaps := extractPurchaseGaps history
    let avgGap := npMean purchaseGaps
    let baseDecay := if purchaseGaps.isEmpty then 0.033 else 1 / max avgGap 1
    let wv := history.foldl (fun (acc : ℚ × ℚ) e =>
      let daysAgo : ℚ := ((ref - e.trxDate : ℤ) : ℚ)
      let weight : ℚ :=
        if decayType = "adaptive" then
          if purchaseGaps.isEmpty then 1
          else if daysAgo ≤ avgGap then 1
          else if daysAgo ≤ avgGap * 3 then 0.7 + 0.3 * (1 - (daysAgo - avgGap) / (avgGap * 2))
          else O.exp (-(baseDecay * daysAgo / 30))
        else if decayType = "exponential" then O.exp (-(baseDecay * daysAgo / 30))
        else max 0 (1 - daysAgo / 365)
      (acc.1 + e.totalQuantity * weight, acc.2 + weight)) (0, 0)
    if 0 < wv.2 then
      let weightedAverage := wv.1 / wv.2
      if weightedAverage ≤ 0 then (npMedian (history.map Event.totalQuantity), 0.3)
      else
        let simpleAvg := npMean (history.map Event.totalQuantity)
        let historicalMax := listMaxRat (history.map Event.totalQuantity)
        let upperBound := min (simpleAvg * 5) (historicalMax * 1.2)
        let lowerBound := max 1 (simpleAvg * 0.1)
        if upperBound < weightedAverage then (min upperBound (simpleAvg * 2), 0.5)
        else if weightedAverage < lowerBound then (max lowerBound (simpleAvg * 0.5), 0.5)
        else (weightedAverage, min 1 ((wv.2 / (history.length : ℚ)) * 2))
    else (npMean (history.map Event.totalQuantity), 0.2)

/-- calculate_activity_score: multi-window recency scoring; raises on a
missing reference date (after the empty-history early return). -/
def calculateActivityScore (_O : AnalyticOracle) (history : List Event)
    (referenceDate : Option ℤ) : Except String ℚ :=
  if history.isEmpty then .ok 0
  else
    match referenceDate with
    | none => .error "reference_date is required for deterministic time-weighted calculations"
    | some ref =>
      let purchaseGaps := extractPurchaseGaps history
      let windows : List ℚ :=
        if purchaseGaps.isEmpty then [7, 30, 90, 180]
        else
          let ag := npMean purchaseGaps
          [min 7 (ag * 2), min 30 (ag * 6), min 90 (ag * 15), min 180 (ag * 30)]
      let score : ℚ → ℚ := fun days =>
        let cnt := (history.filter (fun e => ((ref : ℚ) - days) < (e.trxDate : ℚ))).length
        if purchaseGaps.isEmpty then min 1 ((cnt : ℚ) / (days / 7))
        else min 1 ((cnt : ℚ) / max (days / npMean purchaseGaps) 1)
      let scores := windows.map score
      let s0 := scores.getD 0 0
      let s1 := scores.getD 1 0
      let s2 := scores.getD 2 0
      let s3 := scores.getD 3 0
      let activity := s0 * 0.4 + s1 * 0.3 + s2 * 0.2 + s3 * 0.1
      let activity2 := if 0.3 < s0 ∧ 0.3 < s1 ∧ 0.3 < s2 then min 1 (activity * 1.2) else activity
      let activity3 := if s3 * 1.5 < s0 then min 1 (activity2 * 1.1) else activity2
      .ok activity3

/-- Stable ascending sort of events by date (pandas sort_values; tie order
among same-date rows does not affect any verified statement). -/
def sortEventsByDate (h : List Event) : List Event :=
  List.insertionSort (fun a b => a.trxDate ≤ b.trxDate) h

/-- calculate_growth_trend: split-half rate comparison squashed by tanh. -/
def calculateGrowthTrend (O : AnalyticOracle) (history : List Event) : ℚ :=
  if history.length < 3 then 0
  else
    let sortedHistory := sortEventsByDate history
    let midpoint := sortedHistory.length / 2
    let firstHalf := sortedHistory.take midpoint
    let secondHalf := sortedHistory.drop midpoint
    if firstHalf.isEmpty ∨ secondHalf.isEmpty then 0
    else
      let firstAvg := npMean (firstHalf.map Event.totalQuantity)
      let secondAvg := npMean (secondHalf.map Event.totalQuantity)
      let firstSpan := (listMax (firstHalf.map Event.trxDate) -
        listMinInt (firstHalf.map Event.trxDate)) + 1
      let secondSpan := (listMax (secondHalf.map Event.trxDate) -
        listMinInt (secondHalf.map Event.trxDate)) + 1
      let firstRate := firstAvg * (firstHalf.length : ℚ) / max (firstSpan : ℚ) 1
      let secondRate := secondAvg * (secondHalf.length : ℚ) / max (secondSpan : ℚ) 1
      let growthRate :=
        if 0 < firstRate then (secondRate - firstRate) / firstRate
        else if 0 < secondRate then 1 else 0
      O.tanh growthRate

/-- calculate_importance_trend: three trailing 30-day buckets compared by
tanh(2 x relative change); raises on a missing target date after the
degenerate-input early return.  (A period with customer rows summing to
zero quantity divides by zero; rational division by zero yields 0 where the
source's float division would produce inf.) -/
def calculateImportanceTrend (O : AnalyticOracle) (itemHistory customerHistory : List Event)
    (targetDate : Option ℤ) : Except String ℚ :=
  if itemHistory.isEmpty ∨ customerHistory.length < 3 then .ok 0
  else
    match targetDate with
    | none => .error "target_date is required for deterministic trend calculations"
    | some nowD =>
      let periods : List (ℤ × ℤ) :=
        [(nowD - 30, nowD), (nowD - 60, nowD - 30), (nowD - 90, nowD - 60)]
      let importances := periods.filterMap (fun se =>
        let periodCustomer := customerHistory.filter
          (fun e => se.1 ≤ e.trxDate ∧ e.trxDate < se.2)
        let periodItem := itemHistory.filter (fun e => se.1 ≤ e.trxDate ∧ e.trxDate < se.2)
        if periodCustomer.isEmpty then none
        else some ((periodItem.map Event.totalQuantity).sum /
          (periodCustomer.map Event.totalQuantity).sum))
      if 2 ≤ importances.length then
        let recent := importances.headD 0
        let historical := npMean importances.tail
        if 0 < historical then .ok (O.tanh (((recent - historical) / historical) * 2))
        else .ok 0
      else .ok 0

/-! ## Priority calculator (backend/core/priority_calculator.py) -/

/-- The component-breakdown dict returned alongside the priority. -/
structure PriorityComponents where
  purchasePattern : ℚ
  timingNeed : ℚ
  customerValue : ℚ
  finalPriority : ℚ
deriving Repr, DecidableEq

/-- The market-benchmark cache (_market_benchmark_cache and
_market_benchmark_date): the two fields are only ever written together. -/
abbrev BenchmarkCache := Option (ℚ × ℤ)

/-- Python round(x, 2).  Python uses banker's rounding at exact .5 ties;
the model uses round-half-up, and no verified statement depends on the tie
convention. -/
def round2 (x : ℚ) : ℚ := ((round (x * 100) : ℤ) : ℚ) / 100

/-- Python round(x, 4), with the same tie-convention remark as round2. -/
def round4 (x : ℚ) : ℚ := ((round (x * 10000) : ℤ) : ℚ) / 10000

/-- _calculate_purchase_pattern: purchase rate (70 percent) blended with
interval consistency (30 percent), capped at 1 and rounded to 4 decimals.
The intervals are taken over all item rows sorted by date (duplicates
included), exactly as the source does. -/
def calculatePurchasePattern (O : AnalyticOracle) (customerHistory itemHistory : List Event) :
    ℚ :=
  if customerHistory.isEmpty then 0
  else
    let visitDates := (customerHistory.map Event.trxDate).dedup
    let purchaseDates := (itemHistory.map Event.trxDate).dedup
    if visitDates.length = 0 then 0
    else
      let purchaseRate := (purchaseDates.length : ℚ) / (visitDates.length : ℚ)
      let consistency : ℚ :=
        if 3 ≤ purchaseDates.length then
          let datesSorted := List.insertionSort (fun a b => a ≤ b) (itemHistory.map Event.trxDate)
          let intervals := (datesSorted.zip datesSorted.tail).map
            (fun p => ((p.2 - p.1 : ℤ) : ℚ))
          if intervals.isEmpty then 1
          else
            let meanInterval := npMean intervals
            let stdInterval := npStd O intervals
            if 0 < meanInterval then max 0 (1 - stdInterval / meanInterval) else 1
        else 1
      round4 (min 1 (0.7 * purchaseRate + 0.3 * consistency))

/-- The dynamic component weights of _calculate_dynamic_weights. -/
structure ValueWeights where
  size : ℚ
  importance : ℚ
  activity : ℚ
  growth : ℚ
deriving Repr, DecidableEq

/-- _calculate_dynamic_weights. -/
def calculateDynamicWeights (customerHistory itemHistory : List Event) : ValueWeights :=
  let w0 : ValueWeights := { size := 0.50, importance := 0.25, activity := 0.15, growth := 0.10 }
  let w1 := if customerHistory.length < 5 then { w0 with growth := 0.05, activity := 0.20 } else w0
  let w2 :=
    if itemHistory.length = 0 then
      { w1 with importance := 0, size := 0.60, activity := 0.25, growth := 0.15 }
    else if itemHistory.length < 3 then { w1 with importance := 0.15, size := 0.55 }
    else w1
  let total := w2.size + w2.importance + w2.activity + w2.growth
  if 0 < total then
    { size := w2.size / total, importance := w2.importance / total,
      activity := w2.activity / total, growth := w2.growth / total }
  else w2

/-- The benchmark value computed on a cache miss: per-customer quantity
totals (pandas groupby sorts the customer codes), the 100 largest (keeping
first on ties), averaged. -/
def marketBenchmarkValue (totalCustomersHistory : List Event) : ℚ :=
  let codes := List.insertionSort (fun a b => a < b ∨ a = b)
    ((totalCustomersHistory.map Event.customerCode).dedup)
  let sums := codes.map (fun c =>
    ((totalCustomersHistory.filter (fun e => e.customerCode = c)).map Event.totalQuantity).sum)
  let top := (List.insertionSort (fun a b => b < a) sums).take 100
  npMean top

/-- The cache-miss branch of _get_market_benchmark: an empty market history
returns None without touching the cache; otherwise the benchmark is
computed and cached for the target date. -/
def marketBenchmarkCompute (cache : BenchmarkCache) (market : List Event) (d : ℤ) :
    Option ℚ × BenchmarkCache :=
  if market.isEmpty then (none, cache)
  else
    let v := marketBenchmarkValue market
    (some v, some (v, d))

/-- _get_market_benchmark: raises on a missing target date; returns the
cached value when the cached date matches. -/
def getMarketBenchmark (cache : BenchmarkCache) (market : List Event)
    (targetDate : Option ℤ) : Except String (Option ℚ × BenchmarkCache) :=
  match targetDate with
  | none => .error "target_date is required for deterministic market benchmark calculations"
  | some d =>
    match cache with
    | some vd =>
      if vd.2 = d then .ok (some vd.1, cache)
      else .ok (marketBenchmarkCompute cache market d)
    | none => .ok (marketBenchmarkCompute cache market d)

/-- _calculate_dynamic_customer_size: time-weighted customer total against
the market benchmark, with an activity-based cap.  Exceptions from the
benchmark and activity calls propagate. -/
def calculateDynamicCustomerSize (O : AnalyticOracle) (cache : BenchmarkCache)
    (customerHistory market : List Event) (targetDate : Option ℤ) :
    Except String (ℚ × BenchmarkCache) :=
  let wc := calculateTimeWeightedValue O customerHistory "adaptive" targetDate
  if wc.1 ≤ 0 then .ok (0, cache)
  else
    match getMarketBenchmark cache market targetDate with
    | .error e => .error e
    | .ok bs =>
      let weightedAvgSize := bs.1.getD wc.1
      let sizeRel := wc.1 / max weightedAvgSize 1
      match calculateActivityScore O customerHistory targetDate with
      | .error e => .error e
      | .ok act =>
        let cap := 2 + act
        .ok (min sizeRel cap / cap, bs.2)

/-- _calculate_recent_item_importance: recency-windowed item share of the
customer's volume, trend-adjusted; raises on a missing target date after
the degenerate-input early return. -/
def calculateRecentItemImportance (O : AnalyticOracle) (itemHistory customerHistory : List Event)
    (targetDate : Option ℤ) : Except String ℚ :=
  if itemHistory.isEmpty ∨ customerHistory.isEmpty then .ok 0
  else
    match targetDate with
    | none => .error "target_date is required for deterministic importance calculations"
    | some ref =>
      let purchaseGaps := extractPurchaseGaps customerHistory
      let recencyWindow : ℚ :=
        if purchaseGaps.isEmpty then 60 else min 90 (max 30 (npMean purchaseGaps * 10))
      let cutoff : ℚ := (ref : ℚ) - recencyWindow
      let recentCustomer := customerHistory.filter (fun e => cutoff < (e.trxDate : ℚ))
      let recentItem := itemHistory.filter (fun e => cutoff < (e.trxDate : ℚ))
      let recentImportance : ℚ :=
        if ¬ recentCustomer.isEmpty then
          (recentItem.map Event.totalQuantity).sum /
            max ((recentCustomer.map Event.totalQuantity).sum) 1
        else
          let historicalImportance := (itemHistory.map Event.totalQuantity).sum /
            max ((customerHistory.map Event.totalQuantity).sum) 1
          let daysSinceLast : ℤ := ref - listMax (customerHistory.map Event.trxDate)
          historicalImportance * O.exp (-((daysSinceLast : ℚ) / 90))
      match calculateImportanceTrend O itemHistory customerHistory (some ref) with
      | .error e => .error e
      | .ok trend =>
        let importanceWithTrend :=
          if 0 < trend then recentImportance * (1 + trend * 0.3)
          else if trend < 0 then recentImportance * (1 + trend * 0.2)
          else recentImportance
        .ok (min 1 importanceWithTrend)

/-- _calculate_customer_growth_value (both branches of the source's if
compute the same expression). -/
def calculateCustomerGrowthValue (O : AnalyticOracle) (customerHistory : List Event) : ℚ :=
  0.5 + calculateGrowthTrend O customerHistory * 0.5

/-- _calculate_customer_value: weighted blend of size, importance, activity
and growth, capped at 1 and rounded to 4 decimals; exceptions propagate. -/
def calculateCustomerValue (O : AnalyticOracle) (cache : BenchmarkCache)
    (customerHistory itemHistory market : List Event) (targetDate : Option ℤ) :
    Except String (ℚ × BenchmarkCache) :=
  if customerHistory.isEmpty then .ok (0, cache)
  else
    match calculateDynamicCustomerSize O cache customerHistory market targetDate with
    | .error e => .error e
    | .ok ws =>
      match calculateRecentItemImportance O itemHistory customerHistory targetDate with
      | .error e => .error e
      | .ok recentImportance =>
        match calculateActivityScore O customerHistory targetDate with
        | .error e => .error e
        | .ok activityScore =>
          let growthValue := calculateCustomerGrowthValue O customerHistory
          let w := calculateDynamicWeights customerHistory itemHistory
          let score := w.size * ws.1 + w.importance * recentImportance +
            w.activity * activityScore + w.growth * growthValue
          .ok (round4 (min 1 score), ws.2)

/-- The body of the try block of calculate_priority: filter the item
history, compute the three components, blend with the 0.45/0.35/0.20
weights, clamp to [0, 100] and round to 2 decimals.  Exceptions propagate
to the caller; every exception site runs before any cache write, so the
error carries no state change. -/
def calculatePriorityInner (O : AnalyticOracle) (cache : BenchmarkCache) (itemCode : String)
    (customerHistory market : List Event) (targetDate : Option ℤ) :
    Except String ((ℚ × PriorityComponents) × BenchmarkCache) :=
  let itemHistory := customerHistory.filter (fun e => e.itemCode = itemCode)
  let purchasePattern := calculatePurchasePattern O customerHistory itemHistory
  match calculateTimingNeed O itemHistory none targetDate with
  | .error e => .error e
  | .ok timingNeed =>
    match calculateCustomerValue O cache customerHistory itemHistory market targetDate with
    | .error e => .error e
    | .ok cv =>
      let priority0 := 0.45 * purchasePattern + 0.35 * timingNeed + 0.20 * cv.1
      let priority := round2 (max 0 (min 100 (priority0 * 100)))
      .ok ((priority,
        { purchasePattern := purchasePattern, timingNeed := timingNeed,
          customerValue := cv.1, finalPriority := priority }), cv.2)

/-- calculate_priority: the catch-all except handler converts any raised
error into (0.0, empty components) and leaves the cache untouched (no
exception site writes the cache first).  The customer_code argument is
accepted and ignored, as in the source. -/
def calculatePriority (O : AnalyticOracle) (cache : BenchmarkCache)
    (_customerCode itemCode : String) (customerHistory market : List Event)
    (targetDate : Option ℤ) : (ℚ × Option PriorityComponents) × BenchmarkCache :=
  match calculatePriorityInner O cache itemCode customerHistory market targetDate with
  | .ok (pc, cache2) => ((pc.1, some pc.2), cache2)
  | .error _ => ((0, none), cache)

/-- get_tier: strategy-specific threshold table. -/
def getTier (priority : ℚ) (strategy : String) : String :=
  let t : ℚ × ℚ × ℚ × ℚ :=
    if strategy = "conservative" then (85, 65, 45, 25)
    else if strategy = "aggressive" then (65, 45, 25, 10)
    else (75, 55, 35, 15)
  if t.1 ≤ priority then "MUST_STOCK"
  else if t.2.1 ≤ priority then "SHOULD_STOCK"
  else if t.2.2.1 ≤ priority then "CONSIDER"
  else if t.2.2.2 ≤ priority then "MONITOR"
  else "EXCLUDE"

/-! ## Recommendation generation (backend/routes/recommended_order.py) -/

/-- One row of the recommendations dataframe at the point where
_apply_van_load_constraints runs, restricted to the columns that pass reads
or writes.  RecommendedQuantity is rational because the greedy allocation
assigns min(original_qty, remaining_load) and the van load (a predicted
demand value) may be fractional. -/
structure RecRow where
  customerCode : String
  itemCode : String
  recommendedQuantity : ℚ
  vanLoad : ℚ
  priorityScore : ℚ
deriving Repr, DecidableEq

/-- First-occurrence deduplication: pandas Series.unique on the ItemCode
column, which drives the per-item loop of the constraint pass. -/
def uniqueInOrder (l : List String) : List String :=
  l.foldl (fun acc a => if a ∈ acc then acc else acc ++ [a]) []

/-- item_data.sort_values(PriorityScore, ascending=False): any order that is
descending in PriorityScore (the pandas default sort is not stable, so ties
are resolved arbitrarily; the constraint invariants do not depend on tie
order). -/
def sortByPriorityDesc (l : List RecRow) : List RecRow :=
  List.insertionSort (fun a b => b.priorityScore < a.priorityScore) l

/-- The greedy allocation loop of _apply_van_load_constraints over one
item's rows in descending priority order: once the remaining load is
exhausted a row's quantity becomes 0, otherwise it gets
min(original_qty, remaining_load) and the remainder shrinks. -/
def allocateRows : List RecRow → ℚ → List RecRow
  | [], _ => []
  | r :: rest, remaining =>
    if remaining ≤ 0 then
      { r with recommendedQuantity := 0 } :: allocateRows rest remaining
    else
      let allocated := min r.recommendedQuantity remaining
      { r with recommendedQuantity := allocated } :: allocateRows rest (remaining - allocated)

/-- The per-item body of _apply_van_load_constraints: the van load is read
from the group's first row, and reallocation happens only when the group
total exceeds it. -/
def constrainGroup (group : List RecRow) : List RecRow :=
  match group with
  | [] => []
  | g :: _ =>
    let vanLoad := g.vanLoad
    let total := (group.map RecRow.recommendedQuantity).sum
    if vanLoad < total then allocateRows (sortByPriorityDesc group) vanLoad
    else group

/-- _apply_van_load_constraints: each item's rows are reallocated
independently, then rows with non-positive RecommendedQuantity are dropped.
(The source updates the shared dataframe in place, one item mask at a time;
regrouping the rows by item preserves every row and its allocated quantity,
and the stated invariants are order-independent.) -/
def applyVanLoadConstraints (df : List RecRow) : List RecRow :=
  ((uniqueInOrder (df.map RecRow.itemCode)).flatMap
      (fun c => constrainGroup (df.filter (fun r => r.itemCode = c)))).filter
    (fun r => 0 < r.recommendedQuantity)

/-- _calculate_direct_quantity: the direct priority-to-quantity mapping.
Python round() is banker's rounding on floats; it is modelled by the
standard round-half-up (the difference only matters at exact .5 ties, which
none of the verified statements rely on). -/
def calculateDirectQuantity (priority avgQty vanQty : ℚ) : ℤ :=
  let priorityMultiplier := 0.3 + (priority / 100) * 1.2
  let baseQty : ℤ := max 1 (round avgQty)
  let recommendedQty : ℚ := (baseQty : ℚ) * priorityMultiplier
  ratTrunc (max 1 (min ((round recommendedQty : ℤ) : ℚ) vanQty))

/-- The per-pair skip-and-emit logic of _generate_recommendations (lines
205-217): a scored pair is skipped when priority < 15, otherwise the direct
quantity is computed and a row is emitted only when it is positive. -/
def generateForItem (priority avgQty vanQty : ℚ) : Option ℤ :=
  if priority < 15 then none
  else
    let q := calculateDirectQuantity priority avgQty vanQty
    if 0 < q then some q else none

/-- Modelled from the spec wording of claim C5 (deliberately NOT from the
source, for comparison): quantity = clamp(round(avg_quantity x
(0.3 + priority/100 x 1.2)), 1, van stock) with a single rounding of the
product. -/
def specDirectQuantityClaim (priority avgQty vanQty : ℚ) : ℤ :=
  ratTrunc (max 1 (min ((round (avgQty * (0.3 + (priority / 100) * 1.2)) : ℤ) : ℚ) vanQty))

/- ===================== THEOREMS ===================== -/

/-! ### Association list and truncation lemmas -/

theorem lookup_dictInsert_self {α : Type} (l : List (String × α)) (k : String) (v : α) :
    (dictInsert l k v).lookup k = some v := by
  induction l with
  | nil => simp [dictInsert]
  | cons p rest ih =>
    obtain ⟨k0, v0⟩ := p
    by_cases h : k0 = k
    · subst h
      simp [dictInsert]
    · simp only [dictInsert, if_neg h, List.lookup]
      have : (k == k0) = false := by
        simp [beq_iff_eq]
        exact fun hk => h hk.symm
      simp [this, ih]

theorem lookup_dictInsert_ne {α : Type} (l : List (String × α)) (k k1 : String) (v : α)
    (h : k1 ≠ k) : (dictInsert l k v).lookup k1 = l.lookup k1 := by
  induction l with
  | nil =>
    have : (k1 == k) = false := by simp [beq_iff_eq, h]
    simp [dictInsert, List.lookup, this]
  | cons p rest ih =>
    obtain ⟨k0, v0⟩ := p
    by_cases h0 : k0 = k
    · subst h0
      have : (k1 == k0) = false := by simp [beq_iff_eq, h]
      simp [dictInsert, List.lookup, this]
    · simp only [dictInsert, if_neg h0, List.lookup]
      cases hbk : (k1 == k0) with
      | true => rfl
      | false => exact ih

theorem dictInsert_self {α : Type} (l : List (String × α)) (k : String) (v : α)
    (h : l.lookup k = some v) : dictInsert l k v = l := by
  induction l with
  | nil => simp [List.lookup] at h
  | cons p rest ih =>
    obtain ⟨k0, v0⟩ := p
    by_cases h0 : k0 = k
    · subst h0
      simp only [List.lookup, beq_self_eq_true] at h
      simp only [dictInsert, if_pos rfl]
      simp at h
      simp [h]
    · have : (k == k0) = false := by
        simp [beq_iff_eq]
        exact fun hk => h0 hk.symm
      simp only [List.lookup, this] at h
      simp only [dictInsert, if_neg h0]
      rw [ih h]

theorem halfTrunc_le_round (x : Int) : halfTrunc x ≤ round ((x : ℚ) / 2) := by
  rcases Int.even_or_odd x with ⟨k, hk⟩ | ⟨k, hk⟩
  · subst hk
    have h1 : halfTrunc (k + k) = k := by
      unfold halfTrunc
      have : k + k = 2 * k := by ring
      rw [this]
      exact Int.mul_tdiv_cancel_left k (by norm_num)
    have h2 : round (((k + k : Int) : ℚ) / 2) = k := by
      have : ((k + k : Int) : ℚ) / 2 = (k : ℚ) := by push_cast; ring
      rw [this, round_intCast]
    rw [h1, h2]
  · subst hk
    have h2 : round (((2 * k + 1 : Int) : ℚ) / 2) = k + 1 := by
      rw [round_eq]
      have : ((2 * k + 1 : Int) : ℚ) / 2 + 1 / 2 = ((k + 1 : Int) : ℚ) := by push_cast; ring
      rw [this, Int.floor_intCast]
    rw [h2]
    unfold halfTrunc
    rcases le_or_lt 0 (2 * k + 1) with hx | hx
    · have : (2 * k + 1).tdiv 2 = (2 * k + 1) / 2 := Int.tdiv_eq_ediv hx (by norm_num)
      rw [this]
      have : (2 * k + 1) / 2 = k := by omega
      omega
    · have hneg : (2 * k + 1).tdiv 2 = -((-(2 * k + 1)).tdiv 2) := by
        rw [Int.neg_tdiv, neg_neg]
      have hnn : 0 ≤ -(2 * k + 1) := by omega
      have : (-(2 * k + 1)).tdiv 2 = (-(2 * k + 1)) / 2 := Int.tdiv_eq_ediv hnn (by norm_num)
      omega

/-! ### Field preservation through redistribution -/

theorem addAdjustment_customerRecs (s : SupervisionSession) (c i : String) (q : Int) :
    (addAdjustment s c i q).customerRecommendations = s.customerRecommendations := rfl

theorem addAdjustment_visited (s : SupervisionSession) (c i : String) (q : Int) :
    (addAdjustment s c i q).visitedCustomers = s.visitedCustomers := rfl

theorem redistStep_customerRecs (ic iname : String)
    (acc : SupervisionSession × List RedistDetail × Int) (e : EligibleEntry) :
    ((redistStep ic iname acc e).1).customerRecommendations = acc.1.customerRecommendations := by
  simp only [redistStep]
  split <;> rfl

theorem redistStep_visited (ic iname : String)
    (acc : SupervisionSession × List RedistDetail × Int) (e : EligibleEntry) :
    ((redistStep ic iname acc e).1).visitedCustomers = acc.1.visitedCustomers := by
  simp only [redistStep]
  split <;> rfl

theorem foldl_redistStep_customerRecs (ic iname : String) (custs : List EligibleEntry)
    (acc : SupervisionSession × List RedistDetail × Int) :
    ((custs.foldl (redistStep ic iname) acc).1).customerRecommendations =
      acc.1.customerRecommendations := by
  induction custs generalizing acc with
  | nil => rfl
  | cons e rest ih => rw [List.foldl_cons, ih, redistStep_customerRecs]

theorem foldl_redistStep_visited (ic iname : String) (custs : List EligibleEntry)
    (acc : SupervisionSession × List RedistDetail × Int) :
    ((custs.foldl (redistStep ic iname) acc).1).visitedCustomers =
      acc.1.visitedCustomers := by
  induction custs generalizing acc with
  | nil => rfl
  | cons e rest ih => rw [List.foldl_cons, ih, redistStep_visited]

theorem redistItemStep_customerRecs (unvisited : List String)
    (acc : SupervisionSession × List RedistDetail) (p : String × UnsoldInfo) :
    ((redistItemStep unvisited acc p).1).customerRecommendations =
      acc.1.customerRecommendations := by
  simp only [redistItemStep]
  split
  · rfl
  · exact foldl_redistStep_customerRecs _ _ _ _

theorem redistItemStep_visited (unvisited : List String)
    (acc : SupervisionSession × List RedistDetail) (p : String × UnsoldInfo) :
    ((redistItemStep unvisited acc p).1).visitedCustomers = acc.1.visitedCustomers := by
  simp only [redistItemStep]
  split
  · rfl
  · exact foldl_redistStep_visited _ _ _ _

theorem foldl_redistItemStep_customerRecs (unvisited : List String)
    (u : List (String × UnsoldInfo)) (acc : SupervisionSession × List RedistDetail) :
    ((u.foldl (redistItemStep unvisited) acc).1).customerRecommendations =
      acc.1.customerRecommendations := by
  induction u generalizing acc with
  | nil => rfl
  | cons p rest ih => rw [List.foldl_cons, ih, redistItemStep_customerRecs]

theorem foldl_redistItemStep_visited (unvisited : List String)
    (u : List (String × UnsoldInfo)) (acc : SupervisionSession × List RedistDetail) :
    ((u.foldl (redistItemStep unvisited) acc).1).visitedCustomers =
      acc.1.visitedCustomers := by
  induction u generalizing acc with
  | nil => rfl
  | cons p rest ih => rw [List.foldl_cons, ih, redistItemStep_visited]

theorem redistributeItems_customerRecs (s : SupervisionSession)
    (u : List (String × UnsoldInfo)) :
    ((redistributeItems s u).1).customerRecommendations = s.customerRecommendations := by
  simp only [redistributeItems]
  split
  · rfl
  · split
    · rfl
    · exact foldl_redistItemStep_customerRecs _ _ _

theorem redistributeItems_visited (s : SupervisionSession) (u : List (String × UnsoldInfo)) :
    ((redistributeItems s u).1).visitedCustomers = s.visitedCustomers := by
  simp only [redistributeItems]
  split
  · rfl
  · split
    · rfl
    · exact foldl_redistItemStep_visited _ _ _

/-! ### Adjustment accounting -/

theorem adjGet_addAdjustment_self (s : SupervisionSession) (c i : String) (q : Int) :
    adjGet (addAdjustment s c i q) c i = adjGet s c i + q := by
  unfold adjGet addAdjustment
  rw [lookup_dictInsert_self]
  simp [lookup_dictInsert_self]

theorem adjGet_addAdjustment_ne (s : SupervisionSession) (c i : String) (q : Int)
    (c1 i1 : String) (h : ¬(c1 = c ∧ i1 = i)) :
    adjGet (addAdjustment s c i q) c1 i1 = adjGet s c1 i1 := by
  by_cases hc : c1 = c
  · subst hc
    have hi : i1 ≠ i := fun h2 => h ⟨rfl, h2⟩
    unfold adjGet addAdjustment
    rw [lookup_dictInsert_self]
    simp [lookup_dictInsert_ne _ _ _ _ hi]
  · unfold adjGet addAdjustment
    rw [lookup_dictInsert_ne _ _ _ _ hc]

theorem adjGet_redistStep_le (ic iname : String)
    (acc : SupervisionSession × List RedistDetail × Int) (e : EligibleEntry) (c i : String) :
    adjGet acc.1 c i ≤ adjGet (redistStep ic iname acc e).1 c i := by
  simp only [redistStep]
  split
  · exact le_refl _
  · rename_i hrem
    by_cases hci : c = e.customerCode ∧ i = ic
    · obtain ⟨hc, hi⟩ := hci
      subst hc; subst hi
      rw [adjGet_addAdjustment_self]
      have h1 : (1 : Int) ≤ max 1 (halfTrunc e.currentRecommended) := le_max_left _ _
      have h2 : (1 : Int) ≤ acc.2.2 := by omega
      have : (1 : Int) ≤ min acc.2.2 (max 1 (halfTrunc e.currentRecommended)) := le_min h2 h1
      omega
    · rw [adjGet_addAdjustment_ne _ _ _ _ _ _ hci]

theorem adjGet_foldl_redistStep_le (ic iname : String) (custs : List EligibleEntry)
    (acc : SupervisionSession × List RedistDetail × Int) (c i : String) :
    adjGet acc.1 c i ≤ adjGet (custs.foldl (redistStep ic iname) acc).1 c i := by
  induction custs generalizing acc with
  | nil => exact le_refl _
  | cons e rest ih =>
    rw [List.foldl_cons]
    exact le_trans (adjGet_redistStep_le ic iname acc e c i) (ih _)

theorem adjGet_redistItemStep_le (unvisited : List String)
    (acc : SupervisionSession × List RedistDetail) (p : String × UnsoldInfo) (c i : String) :
    adjGet acc.1 c i ≤ adjGet (redistItemStep unvisited acc p).1 c i := by
  simp only [redistItemStep]
  split
  · exact le_refl _
  · exact adjGet_foldl_redistStep_le _ _ _ _ _ _

theorem adjGet_foldl_redistItemStep_le (unvisited : List String)
    (u : List (String × UnsoldInfo)) (acc : SupervisionSession × List RedistDetail)
    (c i : String) :
    adjGet acc.1 c i ≤ adjGet (u.foldl (redistItemStep unvisited) acc).1 c i := by
  induction u generalizing acc with
  | nil => exact le_refl _
  | cons p rest ih =>
    rw [List.foldl_cons]
    exact le_trans (adjGet_redistItemStep_le unvisited acc p c i) (ih _)

theorem adjGet_redistributeItems_le (s : SupervisionSession) (u : List (String × UnsoldInfo))
    (c i : String) : adjGet s c i ≤ adjGet (redistributeItems s u).1 c i := by
  simp only [redistributeItems]
  split
  · exact le_refl _
  · split
    · exact le_refl _
    · exact adjGet_foldl_redistItemStep_le _ _ _ _ _

/-! ### Positivity of recorded redistribution deltas -/

theorem redistStep_details_pos (ic iname : String)
    (acc : SupervisionSession × List RedistDetail × Int) (e : EligibleEntry)
    (hds : ∀ d ∈ acc.2.1, 0 < d.quantity) :
    ∀ d ∈ (redistStep ic iname acc e).2.1, 0 < d.quantity := by
  simp only [redistStep]
  split
  · exact hds
  · rename_i hrem
    intro d hd
    rw [List.mem_append] at hd
    rcases hd with hd | hd
    · exact hds d hd
    · simp at hd
      subst hd
      have h1 : (1 : Int) ≤ max 1 (halfTrunc e.currentRecommended) := le_max_left _ _
      have h2 : (1 : Int) ≤ acc.2.2 := by omega
      have := le_min h2 h1
      simpa using lt_of_lt_of_le Int.zero_lt_one this

theorem foldl_redistStep_details_pos (ic iname : String) (custs : List EligibleEntry)
    (acc : SupervisionSession × List RedistDetail × Int)
    (hds : ∀ d ∈ acc.2.1, 0 < d.quantity) :
    ∀ d ∈ (custs.foldl (redistStep ic iname) acc).2.1, 0 < d.quantity := by
  induction custs generalizing acc with
  | nil => exact hds
  | cons e rest ih =>
    rw [List.foldl_cons]
    exact ih _ (redistStep_details_pos ic iname acc e hds)

theorem redistItemStep_details_pos (unvisited : List String)
    (acc : SupervisionSession × List RedistDetail) (p : String × UnsoldInfo)
    (hds : ∀ d ∈ acc.2, 0 < d.quantity) :
    ∀ d ∈ (redistItemStep unvisited acc p).2, 0 < d.quantity := by
  simp only [redistItemStep]
  split
  · exact hds
  · exact foldl_redistStep_details_pos _ _ _ _ hds

theorem foldl_redistItemStep_details_pos (unvisited : List String)
    (u : List (String × UnsoldInfo)) (acc : SupervisionSession × List RedistDetail)
    (hds : ∀ d ∈ acc.2, 0 < d.quantity) :
    ∀ d ∈ (u.foldl (redistItemStep unvisited) acc).2, 0 < d.quantity := by
  induction u generalizing acc with
  | nil => exact hds
  | cons p rest ih =>
    rw [List.foldl_cons]
    exact ih _ (redistItemStep_details_pos unvisited acc p hds)

theorem redistributeItems_details_pos (s : SupervisionSession)
    (u : List (String × UnsoldInfo)) :
    ∀ d ∈ (redistributeItems s u).2.details, 0 < d.quantity := by
  simp only [redistributeItems]
  split
  · intro d hd
    simp at hd
  · split
    · intro d hd
      simp at hd
    · exact foldl_redistItemStep_details_pos _ _ _ (by intro d hd; simp at hd)

/-! ### Localisation of adjustment changes within one redistribution pass -/

theorem adjGet_redistStep_eq (ic iname : String)
    (acc : SupervisionSession × List RedistDetail × Int) (e : EligibleEntry) (c i : String)
    (h : ¬(c = e.customerCode ∧ i = ic)) :
    adjGet (redistStep ic iname acc e).1 c i = adjGet acc.1 c i := by
  simp only [redistStep]
  split
  · rfl
  · exact adjGet_addAdjustment_ne _ _ _ _ _ _ h

theorem adjGet_foldl_redistStep_eq (ic iname : String) (custs : List EligibleEntry)
    (c i : String) :
    ∀ acc, (i ≠ ic ∨ c ∉ custs.map EligibleEntry.customerCode) →
      adjGet (custs.foldl (redistStep ic iname) acc).1 c i = adjGet acc.1 c i := by
  induction custs with
  | nil =>
    intro acc _
    rfl
  | cons e rest ih =>
    intro acc h
    have hrest : i ≠ ic ∨ c ∉ rest.map EligibleEntry.customerCode := by
      rcases h with h | h
      · exact Or.inl h
      · right
        intro hc
        exact h (by simp [hc])
    have hstep : ¬(c = e.customerCode ∧ i = ic) := by
      rcases h with h | h
      · exact fun hh => h hh.2
      · intro hh
        exact h (by simp [hh.1])
    rw [List.foldl_cons, ih _ hrest, adjGet_redistStep_eq _ _ _ _ _ _ hstep]

theorem adjGet_redistStep_self_le (ic iname : String)
    (acc : SupervisionSession × List RedistDetail × Int) (e : EligibleEntry) :
    adjGet (redistStep ic iname acc e).1 e.customerCode ic ≤
      adjGet acc.1 e.customerCode ic + max 1 (halfTrunc e.currentRecommended) := by
  simp only [redistStep]
  split
  · have h1 : (1 : Int) ≤ max 1 (halfTrunc e.currentRecommended) := le_max_left _ _
    omega
  · rw [adjGet_addAdjustment_self]
    have := min_le_right acc.2.2 (max 1 (halfTrunc e.currentRecommended))
    omega

theorem adjGet_foldl_redistStep_mem_le (ic iname : String) (custs : List EligibleEntry) :
    ∀ acc (e : EligibleEntry), e ∈ custs →
      (custs.map EligibleEntry.customerCode).Nodup →
      adjGet (custs.foldl (redistStep ic iname) acc).1 e.customerCode ic ≤
        adjGet acc.1 e.customerCode ic + max 1 (halfTrunc e.currentRecommended) := by
  induction custs with
  | nil =>
    intro acc e he _
    cases he
  | cons e0 rest ih =>
    intro acc e he hnd
    rw [List.foldl_cons]
    rw [List.map_cons, List.nodup_cons] at hnd
    rcases List.mem_cons.mp he with rfl | hm
    · rw [adjGet_foldl_redistStep_eq ic iname rest e.customerCode ic _ (Or.inr hnd.1)]
      exact adjGet_redistStep_self_le ic iname acc e
    · have hne : e.customerCode ≠ e0.customerCode := by
        intro hc
        exact hnd.1 (hc ▸ List.mem_map_of_mem EligibleEntry.customerCode hm)
      have hstep : adjGet (redistStep ic iname acc e0).1 e.customerCode ic =
          adjGet acc.1 e.customerCode ic :=
        adjGet_redistStep_eq _ _ _ _ _ _ (fun hh => hne hh.1)
      have := ih (redistStep ic iname acc e0) e hm hnd.2
      rw [hstep] at this
      exact this

/-! ### Eligible recipients -/

theorem eligibleFor_mem_spec (s : SupervisionSession) (unv : List String) (i : String)
    (e : EligibleEntry) (he : e ∈ eligibleFor s unv i) :
    e.customerCode ∈ unv ∧ e.currentRecommended = recOf s e.customerCode i := by
  unfold eligibleFor at he
  rcases List.mem_filterMap.mp he with ⟨c, hc, hfc⟩
  cases hcl : s.customerRecommendations.lookup c with
  | none =>
    rw [hcl] at hfc
    cases hfc
  | some cr =>
    rw [hcl] at hfc
    dsimp only at hfc
    cases hil : cr.items.lookup i with
    | none =>
      rw [hil] at hfc
      cases hfc
    | some ir =>
      rw [hil] at hfc
      simp only [Option.some.injEq] at hfc
      subst hfc
      refine ⟨hc, ?_⟩
      simp [recOf, hcl, hil]

theorem map_filterMap_sublist {α β : Type} (f : α → Option β) (g : β → α)
    (hf : ∀ a b, f a = some b → g b = a) (l : List α) :
    ((l.filterMap f).map g).Sublist l := by
  induction l with
  | nil => simp
  | cons a rest ih =>
    rw [List.filterMap_cons]
    cases hfa : f a with
    | none => exact ih.cons a
    | some b =>
      rw [List.map_cons, hf a b hfa]
      exact ih.cons₂ a

theorem eligibleFor_codes_sublist (s : SupervisionSession) (unv : List String) (i : String) :
    ((eligibleFor s unv i).map EligibleEntry.customerCode).Sublist unv := by
  unfold eligibleFor
  apply map_filterMap_sublist
  intro c e hfc
  cases hcl : s.customerRecommendations.lookup c with
  | none =>
    rw [hcl] at hfc
    cases hfc
  | some cr =>
    rw [hcl] at hfc
    dsimp only at hfc
    cases hil : cr.items.lookup i with
    | none =>
      rw [hil] at hfc
      cases hfc
    | some ir =>
      rw [hil] at hfc
      simp only [Option.some.injEq] at hfc
      subst hfc
      rfl

theorem sortEligible_perm (l : List EligibleEntry) : (sortEligible l).Perm l :=
  List.perm_insertionSort _ l

theorem take5_codes_nodup (l : List EligibleEntry)
    (hnd : (l.map EligibleEntry.customerCode).Nodup) :
    (((sortEligible l).take 5).map EligibleEntry.customerCode).Nodup := by
  have hperm : ((sortEligible l).map EligibleEntry.customerCode).Perm
      (l.map EligibleEntry.customerCode) := (sortEligible_perm l).map _
  have hnds : ((sortEligible l).map EligibleEntry.customerCode).Nodup :=
    hperm.nodup_iff.mpr hnd
  exact List.Nodup.sublist
    (List.Sublist.map EligibleEntry.customerCode (List.take_sublist 5 (sortEligible l))) hnds

theorem mem_take5_codes_unvisited (s : SupervisionSession) (unv : List String) (i c : String)
    (h : c ∈ ((sortEligible (eligibleFor s unv i)).take 5).map EligibleEntry.customerCode) :
    c ∈ unv := by
  rcases List.mem_map.mp h with ⟨e, he, rfl⟩
  have h1 : e ∈ sortEligible (eligibleFor s unv i) := (sortEligible (eligibleFor s unv i)).take_subset 5 he
  have h2 : e ∈ eligibleFor s unv i := ((sortEligible_perm _).mem_iff).mp h1
  exact (eligibleFor_mem_spec s unv i e h2).1

theorem recOf_congr (s1 s2 : SupervisionSession)
    (h : s1.customerRecommendations = s2.customerRecommendations) (c i : String) :
    recOf s1 c i = recOf s2 c i := by
  unfold recOf
  rw [h]

theorem eligibleFor_congr (s1 s2 : SupervisionSession) (unv : List String) (i : String)
    (h : s1.customerRecommendations = s2.customerRecommendations) :
    eligibleFor s1 unv i = eligibleFor s2 unv i := by
  unfold eligibleFor
  rw [h]

/-! ### Per-item pass lemmas -/

theorem adjGet_redistItemStep_eq_of_ne_item (unvisited : List String)
    (acc : SupervisionSession × List RedistDetail) (p : String × UnsoldInfo) (c i : String)
    (h : i ≠ p.1) :
    adjGet (redistItemStep unvisited acc p).1 c i = adjGet acc.1 c i := by
  simp only [redistItemStep]
  split
  · rfl
  · exact adjGet_foldl_redistStep_eq _ _ _ _ _ _ (Or.inl h)

theorem adjGet_redistItemStep_eq_of_not_mem (unvisited : List String)
    (acc : SupervisionSession × List RedistDetail) (p : String × UnsoldInfo) (c i : String)
    (h : c ∉ ((sortEligible (eligibleFor acc.1 unvisited p.1)).take 5).map
      EligibleEntry.customerCode) :
    adjGet (redistItemStep unvisited acc p).1 c i = adjGet acc.1 c i := by
  simp only [redistItemStep]
  split
  · rfl
  · exact adjGet_foldl_redistStep_eq _ _ _ _ _ _ (Or.inr h)

theorem adjGet_redistItemStep_le_bound (unvisited : List String)
    (acc : SupervisionSession × List RedistDetail) (p : String × UnsoldInfo) (c i : String)
    (hnd : unvisited.Nodup) :
    adjGet (redistItemStep unvisited acc p).1 c i ≤
      adjGet acc.1 c i + max 1 (halfTrunc (recOf acc.1 c i)) := by
  have hmax : (1 : Int) ≤ max 1 (halfTrunc (recOf acc.1 c i)) := le_max_left _ _
  by_cases hip : i = p.1
  · subst hip
    by_cases hmem : c ∈ ((sortEligible (eligibleFor acc.1 unvisited p.1)).take 5).map
        EligibleEntry.customerCode
    · rcases List.mem_map.mp hmem with ⟨e, hetake, hecode⟩
      have h1 : e ∈ sortEligible (eligibleFor acc.1 unvisited p.1) :=
        (sortEligible (eligibleFor acc.1 unvisited p.1)).take_subset 5 hetake
      have h2 : e ∈ eligibleFor acc.1 unvisited p.1 := ((sortEligible_perm _).mem_iff).mp h1
      have hspec := eligibleFor_mem_spec acc.1 unvisited p.1 e h2
      have hndc : ((eligibleFor acc.1 unvisited p.1).map EligibleEntry.customerCode).Nodup :=
        List.Nodup.sublist (eligibleFor_codes_sublist acc.1 unvisited p.1) hnd
      have hndt := take5_codes_nodup _ hndc
      simp only [redistItemStep]
      split
      · rename_i hemp
        rw [List.isEmpty_iff] at hemp
        rw [hemp] at h2
        cases h2
      · have := adjGet_foldl_redistStep_mem_le p.1 p.2.itemName
          ((sortEligible (eligibleFor acc.1 unvisited p.1)).take 5)
          (acc.1, acc.2, p.2.quantity) e hetake hndt
        rw [hecode] at this
        rw [hspec.2, hecode] at this
        exact this
    · rw [adjGet_redistItemStep_eq_of_not_mem unvisited acc p c p.1 hmem]
      omega
  · rw [adjGet_redistItemStep_eq_of_ne_item unvisited acc p c i hip]
    omega

/-! ### Fold over the unsold items -/

theorem adjGet_foldl_items_eq_of_not_key (unvisited : List String)
    (u : List (String × UnsoldInfo)) (c i : String) :
    ∀ acc, i ∉ u.map Prod.fst →
      adjGet (u.foldl (redistItemStep unvisited) acc).1 c i = adjGet acc.1 c i := by
  induction u with
  | nil =>
    intro acc _
    rfl
  | cons p rest ih =>
    intro acc h
    rw [List.map_cons] at h
    have hip : i ≠ p.1 := fun hh => h (by simp [hh])
    have hrest : i ∉ rest.map Prod.fst := fun hh => h (by simp [hh])
    rw [List.foldl_cons, ih _ hrest, adjGet_redistItemStep_eq_of_ne_item _ _ _ _ _ hip]

theorem adjGet_foldl_items_le (unvisited : List String) (u : List (String × UnsoldInfo))
    (c i : String) (hnd : unvisited.Nodup) :
    ∀ acc, (u.map Prod.fst).Nodup →
      adjGet (u.foldl (redistItemStep unvisited) acc).1 c i ≤
        adjGet acc.1 c i + max 1 (halfTrunc (recOf acc.1 c i)) := by
  induction u with
  | nil =>
    intro acc _
    rw [List.foldl_nil]
    have : (1 : Int) ≤ max 1 (halfTrunc (recOf acc.1 c i)) := le_max_left _ _
    omega
  | cons p rest ih =>
    intro acc hndu
    rw [List.map_cons, List.nodup_cons] at hndu
    rw [List.foldl_cons]
    by_cases hip : i = p.1
    · subst hip
      rw [adjGet_foldl_items_eq_of_not_key unvisited rest c p.1 _ hndu.1]
      exact adjGet_redistItemStep_le_bound unvisited acc p c p.1 hnd
    · have hstep := adjGet_redistItemStep_eq_of_ne_item unvisited acc p c i hip
      have hrec := recOf_congr (redistItemStep unvisited acc p).1 acc.1
        (redistItemStep_customerRecs unvisited acc p) c i
      have := ih (redistItemStep unvisited acc p) hndu.2
      rw [hstep, hrec] at this
      exact this

theorem adjGet_foldl_items_mem (unvisited : List String) (u : List (String × UnsoldInfo))
    (c i : String) :
    ∀ acc, adjGet (u.foldl (redistItemStep unvisited) acc).1 c i ≠ adjGet acc.1 c i →
      c ∈ ((sortEligible (eligibleFor acc.1 unvisited i)).take 5).map
        EligibleEntry.customerCode := by
  induction u with
  | nil =>
    intro acc h
    exact absurd rfl h
  | cons p rest ih =>
    intro acc h
    rw [List.foldl_cons] at h
    by_cases hstep : adjGet (redistItemStep unvisited acc p).1 c i = adjGet acc.1 c i
    · have hne : adjGet (rest.foldl (redistItemStep unvisited) (redistItemStep unvisited acc p)).1 c i ≠
          adjGet (redistItemStep unvisited acc p).1 c i := by
        rw [hstep]
        exact h
      have := ih (redistItemStep unvisited acc p) hne
      rwa [eligibleFor_congr _ _ unvisited i (redistItemStep_customerRecs unvisited acc p)] at this
    · by_cases hip : i = p.1
      · subst hip
        by_cases hmem : c ∈ ((sortEligible (eligibleFor acc.1 unvisited p.1)).take 5).map
            EligibleEntry.customerCode
        · exact hmem
        · exact absurd (adjGet_redistItemStep_eq_of_not_mem unvisited acc p c p.1 hmem) hstep
      · exact absurd (adjGet_redistItemStep_eq_of_ne_item unvisited acc p c i hip) hstep

/-! ### Claim C3: single-pass redistribution bounds -/

/-- Claim C3: in a single redistribution pass, no recipient's allocation for
an item grows by more than max(1, round(0.5 times their current recommended
quantity)); only customers among the top 5 of the eligible list (sorted
descending by tier rank, probability, urgency) receive anything for an item;
and a customer already marked visited never receives a delta. -/
theorem redistribute_single_pass_bounds (s : SupervisionSession)
    (u : List (String × UnsoldInfo)) (s2 : SupervisionSession) (r : RedistResult)
    (hrun : redistributeItems s u = (s2, r))
    (hndu : (u.map Prod.fst).Nodup)
    (hndc : (s.customerRecommendations.map Prod.fst).Nodup) :
    (∀ c i, adjGet s2 c i ≤ adjGet s c i + max 1 (round ((recOf s c i : ℚ) / 2))) ∧
    (∀ c i, adjGet s2 c i ≠ adjGet s c i →
      c ∈ ((sortEligible (eligibleFor s (unvisitedOf s) i)).take 5).map
        EligibleEntry.customerCode) ∧
    (∀ c ∈ s.visitedCustomers, ∀ i, adjGet s2 c i = adjGet s c i) := by
  have hbound : ∀ c i, max 1 (halfTrunc (recOf s c i)) ≤ max 1 (round ((recOf s c i : ℚ) / 2)) :=
    fun c i => max_le_max (le_refl 1) (halfTrunc_le_round _)
  have hmax : ∀ c i, (1 : Int) ≤ max 1 (round ((recOf s c i : ℚ) / 2)) :=
    fun c i => le_max_left _ _
  simp only [redistributeItems] at hrun
  split at hrun
  · simp only [Prod.mk.injEq] at hrun
    obtain ⟨hs2, _⟩ := hrun
    subst hs2
    refine ⟨fun c i => by have := hmax c i; omega, fun c i hne => absurd rfl hne,
      fun c _ i => rfl⟩
  · split at hrun
    · simp only [Prod.mk.injEq] at hrun
      obtain ⟨hs2, _⟩ := hrun
      subst hs2
      refine ⟨fun c i => by have := hmax c i; omega, fun c i hne => absurd rfl hne,
        fun c _ i => rfl⟩
    · rename_i hune hunv
      simp only [Prod.mk.injEq] at hrun
      obtain ⟨hs2, _⟩ := hrun
      have hndunv : (unvisitedOf s).Nodup := List.Nodup.filter _ hndc
      have hmemlem : ∀ c i, adjGet s2 c i ≠ adjGet s c i →
          c ∈ ((sortEligible (eligibleFor s (unvisitedOf s) i)).take 5).map
            EligibleEntry.customerCode := by
        intro c i hne
        rw [← hs2] at hne
        exact adjGet_foldl_items_mem (unvisitedOf s) u c i (s, []) hne
      refine ⟨?_, hmemlem, ?_⟩
      · intro c i
        have := adjGet_foldl_items_le (unvisitedOf s) u c i hndunv (s, []) hndu
        dsimp only at this
        rw [hs2] at this
        have hb := hbound c i
        omega
      · intro c hc i
        by_contra hne
        have hmem := hmemlem c i hne
        have : c ∈ unvisitedOf s := mem_take5_codes_unvisited s (unvisitedOf s) i c hmem
        unfold unvisitedOf at this
        rw [List.mem_filter] at this
        simp at this
        exact this.2 hc

/-- Witness for C3 at a concrete two-customer session. -/
theorem redistribute_single_pass_bounds_witness :
    let s : SupervisionSession :=
      { customerRecommendations :=
          [("B", { customerCode := "B"
                   items := [("X", { itemCode := "X", itemName := "x", recommendedQuantity := 4,
                                     tier := "CONSIDER", probability := 1, urgencyScore := 1 })]
                   visited := false
                   actualSales := [] })]
        vanInventory := [("X", 4)]
        visitedCustomers := ["A"]
        adjustments := [("B", [])]
        redistributionLog := [] }
    let u : List (String × UnsoldInfo) := [("X", { quantity := 3, itemName := "x" })]
    (∀ c i, adjGet (redistributeItems s u).1 c i ≤
      adjGet s c i + max 1 (round ((recOf s c i : ℚ) / 2))) ∧
    (∀ c i, adjGet (redistributeItems s u).1 c i ≠ adjGet s c i →
      c ∈ ((sortEligible (eligibleFor s (unvisitedOf s) i)).take 5).map
        EligibleEntry.customerCode) ∧
    (∀ c ∈ s.visitedCustomers, ∀ i, adjGet (redistributeItems s u).1 c i = adjGet s c i) := by
  intro s u
  exact redistribute_single_pass_bounds s u (redistributeItems s u).1 (redistributeItems s u).2
    rfl (by decide) (by decide)

/-! ### Where redistribution details come from -/

theorem mem_details_redistStep (ic iname : String)
    (acc : SupervisionSession × List RedistDetail × Int) (e : EligibleEntry)
    (d : RedistDetail) (hd : d ∈ acc.2.1) : d ∈ (redistStep ic iname acc e).2.1 := by
  simp only [redistStep]
  split
  · exact hd
  · exact List.mem_append_left _ hd

theorem mem_details_foldl_redistStep (ic iname : String) (custs : List EligibleEntry) :
    ∀ acc (d : RedistDetail), d ∈ acc.2.1 →
      d ∈ (custs.foldl (redistStep ic iname) acc).2.1 := by
  induction custs with
  | nil =>
    intro acc d hd
    exact hd
  | cons e rest ih =>
    intro acc d hd
    rw [List.foldl_cons]
    exact ih _ d (mem_details_redistStep ic iname acc e d hd)

theorem mem_details_redistItemStep (unvisited : List String)
    (acc : SupervisionSession × List RedistDetail) (p : String × UnsoldInfo)
    (d : RedistDetail) (hd : d ∈ acc.2) : d ∈ (redistItemStep unvisited acc p).2 := by
  simp only [redistItemStep]
  split
  · exact hd
  · exact mem_details_foldl_redistStep _ _ _ _ d hd

theorem mem_details_foldl_items (unvisited : List String) (u : List (String × UnsoldInfo)) :
    ∀ acc (d : RedistDetail), d ∈ acc.2 →
      d ∈ (u.foldl (redistItemStep unvisited) acc).2 := by
  induction u with
  | nil =>
    intro acc d hd
    exact hd
  | cons p rest ih =>
    intro acc d hd
    rw [List.foldl_cons]
    exact ih _ d (mem_details_redistItemStep unvisited acc p d hd)

theorem details_redistStep_item (ic iname : String)
    (acc : SupervisionSession × List RedistDetail × Int) (e : EligibleEntry) :
    ∀ d ∈ (redistStep ic iname acc e).2.1, d ∈ acc.2.1 ∨ d.itemCode = ic := by
  simp only [redistStep]
  split
  · intro d hd
    exact Or.inl hd
  · intro d hd
    rw [List.mem_append] at hd
    rcases hd with hd | hd
    · exact Or.inl hd
    · simp at hd
      subst hd
      exact Or.inr rfl

theorem details_foldl_redistStep_item (ic iname : String) (custs : List EligibleEntry) :
    ∀ acc, ∀ d ∈ (custs.foldl (redistStep ic iname) acc).2.1,
      d ∈ acc.2.1 ∨ d.itemCode = ic := by
  induction custs with
  | nil =>
    intro acc d hd
    exact Or.inl hd
  | cons e rest ih =>
    intro acc d hd
    rw [List.foldl_cons] at hd
    rcases ih _ d hd with hin | hic
    · exact details_redistStep_item ic iname acc e d hin
    · exact Or.inr hic

theorem details_redistItemStep_src (unvisited : List String)
    (acc : SupervisionSession × List RedistDetail) (p : String × UnsoldInfo) :
    ∀ d ∈ (redistItemStep unvisited acc p).2,
      d ∈ acc.2 ∨ (d.itemCode = p.1 ∧ eligibleFor acc.1 unvisited p.1 ≠ []) := by
  simp only [redistItemStep]
  split
  · intro d hd
    exact Or.inl hd
  · rename_i hemp
    rw [List.isEmpty_iff] at hemp
    intro d hd
    rcases details_foldl_redistStep_item p.1 p.2.itemName _ _ d hd with hin | hic
    · exact Or.inl hin
    · exact Or.inr ⟨hic, hemp⟩

theorem details_foldl_items_src (unvisited : List String) (u : List (String × UnsoldInfo))
    (s0 : SupervisionSession) :
    ∀ acc, acc.1.customerRecommendations = s0.customerRecommendations →
      ∀ d ∈ (u.foldl (redistItemStep unvisited) acc).2,
        d ∈ acc.2 ∨ ∃ p ∈ u, d.itemCode = p.1 ∧ eligibleFor s0 unvisited p.1 ≠ [] := by
  induction u with
  | nil =>
    intro acc _ d hd
    exact Or.inl hd
  | cons p rest ih =>
    intro acc hcr d hd
    rw [List.foldl_cons] at hd
    have hcr1 : (redistItemStep unvisited acc p).1.customerRecommendations =
        s0.customerRecommendations := by
      rw [redistItemStep_customerRecs]
      exact hcr
    rcases ih (redistItemStep unvisited acc p) hcr1 d hd with hin | ⟨q, hq, hqi, hqe⟩
    · rcases details_redistItemStep_src unvisited acc p d hin with hin0 | ⟨hitem, helig⟩
      · exact Or.inl hin0
      · right
        refine ⟨p, List.mem_cons_self p rest, hitem, ?_⟩
        rwa [eligibleFor_congr acc.1 s0 unvisited p.1 hcr] at helig
    · exact Or.inr ⟨q, List.mem_cons_of_mem p hq, hqi, hqe⟩

theorem foldl_redistStep_produces (ic iname : String) (custs : List EligibleEntry)
    (st : SupervisionSession) (ds : List RedistDetail) (rem : Int)
    (hne : custs ≠ []) (hrem : 0 < rem) :
    ∃ d ∈ (custs.foldl (redistStep ic iname) (st, ds, rem)).2.1, d.itemCode = ic := by
  obtain ⟨e, rest, rfl⟩ := List.exists_cons_of_ne_nil hne
  rw [List.foldl_cons]
  have hstep : redistStep ic iname (st, ds, rem) e =
      (addAdjustment st e.customerCode ic (min rem (max 1 (halfTrunc e.currentRecommended))),
        ds ++ [{ itemCode := ic, itemName := iname, customerCode := e.customerCode,
                 quantity := min rem (max 1 (halfTrunc e.currentRecommended)),
                 tier := e.tier, probability := e.probability }],
        rem - min rem (max 1 (halfTrunc e.currentRecommended))) := by
    simp only [redistStep]
    rw [if_neg (by omega)]
  rw [hstep]
  refine ⟨{ itemCode := ic, itemName := iname, customerCode := e.customerCode,
            quantity := min rem (max 1 (halfTrunc e.currentRecommended)),
            tier := e.tier, probability := e.probability },
    mem_details_foldl_redistStep ic iname rest _ _ ?_, rfl⟩
  exact List.mem_append_right _ (List.mem_singleton.mpr rfl)

theorem redistItemStep_produces (unvisited : List String)
    (acc : SupervisionSession × List RedistDetail) (p : String × UnsoldInfo)
    (helig : eligibleFor acc.1 unvisited p.1 ≠ []) (hq : 0 < p.2.quantity) :
    ∃ d ∈ (redistItemStep unvisited acc p).2, d.itemCode = p.1 := by
  simp only [redistItemStep]
  split
  · rename_i hemp
    rw [List.isEmpty_iff] at hemp
    exact absurd hemp helig
  · apply foldl_redistStep_produces
    · intro htake
      have hsne : sortEligible (eligibleFor acc.1 unvisited p.1) ≠ [] := by
        intro hs
        apply helig
        have hp := sortEligible_perm (eligibleFor acc.1 unvisited p.1)
        rw [hs] at hp
        exact hp.symm.eq_nil
      obtain ⟨e, rest, heq⟩ := List.exists_cons_of_ne_nil hsne
      rw [heq] at htake
      simp [List.take] at htake
    · exact hq

theorem details_foldl_items_exists (unvisited : List String) (u : List (String × UnsoldInfo))
    (s0 : SupervisionSession) :
    ∀ acc, acc.1.customerRecommendations = s0.customerRecommendations →
      ∀ p ∈ u, eligibleFor s0 unvisited p.1 ≠ [] → 0 < p.2.quantity →
        ∃ d ∈ (u.foldl (redistItemStep unvisited) acc).2, d.itemCode = p.1 := by
  induction u with
  | nil =>
    intro acc _ p hp
    cases hp
  | cons q rest ih =>
    intro acc hcr p hp helig hq
    rw [List.foldl_cons]
    rcases List.mem_cons.mp hp with rfl | hm
    · have helig2 : eligibleFor acc.1 unvisited p.1 ≠ [] := by
        rwa [eligibleFor_congr acc.1 s0 unvisited p.1 hcr]
      obtain ⟨d, hd, hdi⟩ := redistItemStep_produces unvisited acc p helig2 hq
      exact ⟨d, mem_details_foldl_items unvisited rest _ d hd, hdi⟩
    · have hcr1 : (redistItemStep unvisited acc q).1.customerRecommendations =
          s0.customerRecommendations := by
        rw [redistItemStep_customerRecs]
        exact hcr
      exact ih (redistItemStep unvisited acc q) hcr1 p hm helig hq

/-! ### Claim C8 (amended): the items_not_redistributed report -/

/-- Counterexample to claim C8 as stated: item X is unsold with quantity 10
and only 1 unit can be placed (the single eligible recipient currently has
recommended quantity 2, so the 50 percent cap is max(1, 1) = 1); the unsold
quantity is not fully placed, yet items_not_redistributed is empty and the
status is success, not partial. -/
theorem redistribute_partial_placement_counterexample :
    let crB : CustomerRec :=
      { customerCode := "B"
        items := [("X", { itemCode := "X", itemName := "x", recommendedQuantity := 2,
                          tier := "CONSIDER", probability := 1, urgencyScore := 1 })]
        visited := false
        actualSales := [] }
    let s : SupervisionSession :=
      { customerRecommendations := [("B", crB)]
        vanInventory := [("X", 2)]
        visitedCustomers := ["A"]
        adjustments := [("B", [])]
        redistributionLog := [] }
    let u : List (String × UnsoldInfo) := [("X", { quantity := 10, itemName := "x" })]
    ((redistributeItems s u).2.details.map RedistDetail.quantity).sum = 1 ∧
    (redistributeItems s u).2.itemsNotRedistributed = some [] ∧
    (redistributeItems s u).2.status = "success" := by
  decide

/-- Claim C8, amended: after a redistribution pass with a non-empty unsold
set and at least one unvisited customer, an unsold item appears in
items_not_redistributed exactly when it had no eligible unvisited recipient
(items that were only partially placed are not reported), and the result
carries the non-error status partial exactly when that list is non-empty,
success otherwise. -/
theorem redistribute_items_not_redistributed_spec (s : SupervisionSession)
    (u : List (String × UnsoldInfo)) (s2 : SupervisionSession) (r : RedistResult)
    (hrun : redistributeItems s u = (s2, r))
    (hne : u ≠ []) (hunv : unvisitedOf s ≠ [])
    (hq : ∀ p ∈ u, 0 < p.2.quantity) :
    ∃ L, r.itemsNotRedistributed = some L ∧
      (∀ i, i ∈ L ↔ i ∈ u.map Prod.fst ∧ eligibleFor s (unvisitedOf s) i = []) ∧
      r.status = (if L.isEmpty then "success" else "partial") := by
  simp only [redistributeItems] at hrun
  rw [if_neg (by simpa [List.isEmpty_iff] using hne)] at hrun
  rw [if_neg (by simpa [List.isEmpty_iff] using hunv)] at hrun
  simp only [Prod.mk.injEq] at hrun
  obtain ⟨hs2, hr⟩ := hrun
  set details := (u.foldl (redistItemStep (unvisitedOf s)) (s, [])).2 with hdet
  set itemsNot := (u.filter (fun p => ¬ details.any (fun d => d.itemCode = p.1))).map Prod.fst
    with hinot
  refine ⟨itemsNot, by rw [← hr], ?_, by rw [← hr]⟩
  intro i
  constructor
  · intro hi
    rcases List.mem_map.mp hi with ⟨p, hpf, hpi⟩
    rw [List.mem_filter] at hpf
    obtain ⟨hpu, hpcond⟩ := hpf
    refine ⟨hpi ▸ List.mem_map_of_mem Prod.fst hpu, ?_⟩
    by_contra helig
    have := details_foldl_items_exists (unvisitedOf s) u s (s, []) rfl p hpu
      (by rwa [hpi]) (hq p hpu)
    obtain ⟨d, hd, hdi⟩ := this
    have : details.any (fun d => d.itemCode = p.1) := by
      rw [List.any_eq_true]
      exact ⟨d, hd, by simp [hdi]⟩
    simp [this] at hpcond
  · intro ⟨hiu, helig⟩
    rcases List.mem_map.mp hiu with ⟨p, hpu, hpi⟩
    rw [hinot]
    apply List.mem_map.mpr
    refine ⟨p, ?_, hpi⟩
    rw [List.mem_filter]
    refine ⟨hpu, ?_⟩
    have hnone : ¬ ∃ d ∈ details, d.itemCode = p.1 := by
      rintro ⟨d, hd, hdi⟩
      rcases details_foldl_items_src (unvisitedOf s) u s (s, []) rfl d hd with
        hnil | ⟨q, hqu, hqi, hqe⟩
      · simp at hnil
      · apply hqe
        rw [← hqi, hdi, hpi]
        exact helig
    simpa [List.any_eq_true] using hnone

/-! ### Claim C7: process_visit error behaviour and the visited state machine -/

/-- Claim C7: process_visit returns a structured error result (not an
exception) exactly when the customer is unknown to the session or already
visited; on such an error the session state is unchanged; and on success the
customer was not yet visited and is appended to the visited set, so each
customer transitions to visited at most once per session. -/
theorem processVisit_error_iff_and_state (s : SupervisionSession) (c : String)
    (a : List (String × Int)) (s2 : SupervisionSession) (res : VisitResult)
    (h : processVisit s c a = (s2, res)) :
    ((∃ m, res = .failure m) ↔
      (s.customerRecommendations.lookup c = none ∨ c ∈ s.visitedCustomers)) ∧
    ((∃ m, res = .failure m) → s2 = s) ∧
    (∀ cc un rr ad, res = .success cc un rr ad →
      c ∉ s.visitedCustomers ∧ s2.visitedCustomers = s.visitedCustomers ++ [c]) := by
  unfold processVisit at h
  split at h
  · rename_i hl
    simp only [Prod.mk.injEq] at h
    obtain ⟨hs2, hres⟩ := h
    subst hs2
    refine ⟨⟨fun _ => Or.inl hl, fun _ => ⟨_, hres.symm⟩⟩, fun _ => rfl, ?_⟩
    intro cc un rr ad hsucc
    rw [← hres] at hsucc
    cases hsucc
  · rename_i cr hl
    split at h
    · rename_i hv
      simp only [Prod.mk.injEq] at h
      obtain ⟨hs2, hres⟩ := h
      subst hs2
      refine ⟨⟨fun _ => Or.inr hv, fun _ => ⟨_, hres.symm⟩⟩, fun _ => rfl, ?_⟩
      intro cc un rr ad hsucc
      rw [← hres] at hsucc
      cases hsucc
    · rename_i hv
      simp only [Prod.mk.injEq] at h
      obtain ⟨hs2, hres⟩ := h
      constructor
      · constructor
        · intro ⟨m, hm⟩
          rw [← hres] at hm
          cases hm
        · intro hor
          rcases hor with hnone | hvis
          · rw [hl] at hnone
            cases hnone
          · exact absurd hvis hv
      · constructor
        · intro ⟨m, hm⟩
          rw [← hres] at hm
          cases hm
        · intro cc un rr ad _
          refine ⟨hv, ?_⟩
          rw [← hs2]
          rw [redistributeItems_visited]

/-- Witness for C7 at a concrete one-customer session: the theorem applies
with its equation hypothesis discharged definitionally. -/
theorem processVisit_error_iff_and_state_witness :
    ((∃ m, (processVisit freshSession "A" []).2 = .failure m) ↔
      (freshSession.customerRecommendations.lookup "A" = none ∨
        "A" ∈ freshSession.visitedCustomers)) ∧
    ((∃ m, (processVisit freshSession "A" []).2 = .failure m) →
      (processVisit freshSession "A" []).1 = freshSession) ∧
    (∀ cc un rr ad, (processVisit freshSession "A" []).2 = .success cc un rr ad →
      "A" ∉ freshSession.visitedCustomers ∧
      (processVisit freshSession "A" []).1.visitedCustomers =
        freshSession.visitedCustomers ++ ["A"]) :=
  processVisit_error_iff_and_state freshSession "A" []
    (processVisit freshSession "A" []).1 (processVisit freshSession "A" []).2 rfl

/-! ### Claim C10: adjustments only grow, by strictly positive deltas -/

/-- Claim C10: every per-recipient redistribution delta recorded by a visit
is strictly positive, and the cumulative adjustment of every customer-item
pair is non-decreasing (hence stays non-negative) across process_visit
calls. -/
theorem processVisit_adjustments_monotone (s : SupervisionSession) (c : String)
    (a : List (String × Int)) (s2 : SupervisionSession) (res : VisitResult)
    (h : processVisit s c a = (s2, res)) :
    (∀ cu it, adjGet s cu it ≤ adjGet s2 cu it) ∧
    (∀ cc un rr ad, res = .success cc un rr ad → ∀ d ∈ rr.details, 0 < d.quantity) ∧
    ((∀ cu it, 0 ≤ adjGet s cu it) → ∀ cu it, 0 ≤ adjGet s2 cu it) := by
  unfold processVisit at h
  split at h
  · simp only [Prod.mk.injEq] at h
    obtain ⟨hs2, hres⟩ := h
    subst hs2
    refine ⟨fun cu it => le_refl _, ?_, fun hn cu it => hn cu it⟩
    intro cc un rr ad hsucc
    rw [← hres] at hsucc
    cases hsucc
  · rename_i cr hl
    split at h
    · simp only [Prod.mk.injEq] at h
      obtain ⟨hs2, hres⟩ := h
      subst hs2
      refine ⟨fun cu it => le_refl _, ?_, fun hn cu it => hn cu it⟩
      intro cc un rr ad hsucc
      rw [← hres] at hsucc
      cases hsucc
    · simp only [Prod.mk.injEq] at h
      obtain ⟨hs2, hres⟩ := h
      have hmono : ∀ cu it, adjGet s cu it ≤ adjGet s2 cu it := by
        intro cu it
        rw [← hs2]
        exact adjGet_redistributeItems_le _ _ cu it
      refine ⟨hmono, ?_, ?_⟩
      · intro cc un rr ad hsucc
        rw [← hres] at hsucc
        cases hsucc
        exact redistributeItems_details_pos _ _
      · intro hn cu it
        exact le_trans (hn cu it) (hmono cu it)

/-- Witness for C10 at a concrete session. -/
theorem processVisit_adjustments_monotone_witness :
    (∀ cu it, adjGet freshSession cu it ≤ adjGet (processVisit freshSession "A" []).1 cu it) ∧
    (∀ cc un rr ad, (processVisit freshSession "A" []).2 = .success cc un rr ad →
      ∀ d ∈ rr.details, 0 < d.quantity) ∧
    ((∀ cu it, 0 ≤ adjGet freshSession cu it) →
      ∀ cu it, 0 ≤ adjGet (processVisit freshSession "A" []).1 cu it) :=
  processVisit_adjustments_monotone freshSession "A" []
    (processVisit freshSession "A" []).1 (processVisit freshSession "A" []).2 rfl

/-- Witness for the amended C8 at a concrete session with one unvisited
eligible recipient. -/
theorem redistribute_items_not_redistributed_spec_witness :
    let crB : CustomerRec :=
      { customerCode := "B"
        items := [("X", { itemCode := "X", itemName := "x", recommendedQuantity := 2,
                          tier := "CONSIDER", probability := 1, urgencyScore := 1 })]
        visited := false
        actualSales := [] }
    let s : SupervisionSession :=
      { customerRecommendations := [("B", crB)]
        vanInventory := [("X", 2)]
        visitedCustomers := ["A"]
        adjustments := [("B", [])]
        redistributionLog := [] }
    let u : List (String × UnsoldInfo) := [("X", { quantity := 10, itemName := "x" }),
      ("Y", { quantity := 4, itemName := "y" })]
    ∃ L, (redistributeItems s u).2.itemsNotRedistributed = some L ∧
      (∀ i, i ∈ L ↔ i ∈ u.map Prod.fst ∧ eligibleFor s (unvisitedOf s) i = []) ∧
      (redistributeItems s u).2.status = (if L.isEmpty then "success" else "partial") := by
  intro crB s u
  exact redistribute_items_not_redistributed_spec s u
    (redistributeItems s u).1 (redistributeItems s u).2 rfl
    (by decide) (by decide) (by decide)

/-! ### Initialisation lemmas (initialize_from_recommendations) -/

theorem initStep_preserves_binding (st : SupervisionSession) (row : SupervisionRow)
    (c i : String) (cr : CustomerRec) (ir : ItemRec)
    (hne : ¬(c = row.customerCode ∧ i = row.itemCode))
    (hc : st.customerRecommendations.lookup c = some cr)
    (hi : cr.items.lookup i = some ir) :
    ∃ cr2, (initStep st row).customerRecommendations.lookup c = some cr2 ∧
      cr2.items.lookup i = some ir := by
  by_cases hcc : c = row.customerCode
  · subst hcc
    have hii : i ≠ row.itemCode := fun h => hne ⟨rfl, h⟩
    simp only [initStep, hc, Option.getD_some]
    refine ⟨_, lookup_dictInsert_self _ _ _, ?_⟩
    show (dictInsert cr.items row.itemCode (itemRecOf row)).lookup i = some ir
    rw [lookup_dictInsert_ne _ _ _ _ hii]
    exact hi
  · refine ⟨cr, ?_, hi⟩
    simp only [initStep]
    rw [lookup_dictInsert_ne _ _ _ _ hcc]
    exact hc

theorem initStep_creates_binding (st : SupervisionSession) (row : SupervisionRow) :
    ∃ cr, (initStep st row).customerRecommendations.lookup row.customerCode = some cr ∧
      cr.items.lookup row.itemCode = some (itemRecOf row) := by
  simp only [initStep]
  refine ⟨_, lookup_dictInsert_self _ _ _, ?_⟩
  exact lookup_dictInsert_self _ _ _

theorem foldl_initStep_preserves (rows : List SupervisionRow) :
    ∀ st (c i : String) (ir : ItemRec),
      (∀ r ∈ rows, ¬(c = r.customerCode ∧ i = r.itemCode)) →
      (∃ cr, st.customerRecommendations.lookup c = some cr ∧ cr.items.lookup i = some ir) →
      ∃ cr, (rows.foldl initStep st).customerRecommendations.lookup c = some cr ∧
        cr.items.lookup i = some ir := by
  induction rows with
  | nil =>
    intro st c i ir _ hb
    exact hb
  | cons r0 rest ih =>
    intro st c i ir hne hb
    rw [List.foldl_cons]
    obtain ⟨cr, hc, hi⟩ := hb
    have := initStep_preserves_binding st r0 c i cr ir (hne r0 (List.mem_cons_self r0 rest)) hc hi
    exact ih (initStep st r0) c i ir (fun r hr => hne r (List.mem_cons_of_mem r0 hr)) this

theorem foldl_initStep_binding (rows : List SupervisionRow) :
    ∀ st, (rows.map (fun r => (r.customerCode, r.itemCode))).Nodup →
      ∀ row ∈ rows,
        ∃ cr, (rows.foldl initStep st).customerRecommendations.lookup row.customerCode = some cr ∧
          cr.items.lookup row.itemCode = some (itemRecOf row) := by
  induction rows with
  | nil =>
    intro st _ row hrow
    cases hrow
  | cons r0 rest ih =>
    intro st hnd row hrow
    rw [List.map_cons, List.nodup_cons] at hnd
    rw [List.foldl_cons]
    rcases List.mem_cons.mp hrow with rfl | hm
    · apply foldl_initStep_preserves rest (initStep st row) row.customerCode row.itemCode
        (itemRecOf row) ?_ (initStep_creates_binding st row)
      intro r hr hpair
      apply hnd.1
      have : (row.customerCode, row.itemCode) = (r.customerCode, r.itemCode) := by
        rw [hpair.1, hpair.2]
      rw [this]
      exact List.mem_map_of_mem _ hr
    · exact ih (initStep st r0) hnd.2 row hm

theorem foldl_initStep_idempotent_crs (rows : List SupervisionRow) :
    ∀ st1, (∀ row ∈ rows,
        ∃ cr, st1.customerRecommendations.lookup row.customerCode = some cr ∧
          cr.items.lookup row.itemCode = some (itemRecOf row)) →
      (rows.foldl initStep st1).customerRecommendations = st1.customerRecommendations := by
  induction rows with
  | nil =>
    intro st1 _
    rfl
  | cons r0 rest ih =>
    intro st1 hb
    rw [List.foldl_cons]
    obtain ⟨cr, hc, hi⟩ := hb r0 (List.mem_cons_self r0 rest)
    have hcrs : (initStep st1 r0).customerRecommendations = st1.customerRecommendations := by
      simp only [initStep, hc, Option.getD_some]
      rw [dictInsert_self _ _ _ hi]
      have heta : ({ cr with items := cr.items } : CustomerRec) = cr := rfl
      rw [heta, dictInsert_self _ _ _ hc]
    rw [ih (initStep st1 r0) ?_, hcrs]
    intro row hrow
    rw [hcrs]
    exact hb row (List.mem_cons_of_mem r0 hrow)

theorem vanGet_initStep (st : SupervisionSession) (row : SupervisionRow) (i : String) :
    vanGet (initStep st row) i =
      vanGet st i + (if row.itemCode = i then row.recommendedQuantity else 0) := by
  unfold vanGet
  by_cases h : row.itemCode = i
  · subst h
    simp only [initStep]
    rw [lookup_dictInsert_self]
    simp [if_pos rfl]
  · simp only [initStep]
    rw [lookup_dictInsert_ne _ _ _ _ (fun hh => h hh.symm)]
    simp [h]

theorem vanGet_foldl_initStep (rows : List SupervisionRow) :
    ∀ st (i : String), vanGet (rows.foldl initStep st) i = vanGet st i + sumQtyFor rows i := by
  induction rows with
  | nil =>
    intro st i
    simp [sumQtyFor]
  | cons r0 rest ih =>
    intro st i
    rw [List.foldl_cons, ih (initStep st r0) i, vanGet_initStep]
    have : sumQtyFor (r0 :: rest) i =
        (if r0.itemCode = i then r0.recommendedQuantity else 0) + sumQtyFor rest i := by
      unfold sumQtyFor
      rw [List.filter_cons]
      by_cases h : r0.itemCode = i
      · simp [h]
      · simp [h]
    omega

/-! ### Claim C9 (amended): initialize is not idempotent on the van inventory -/

/-- Counterexample to claim C9 as stated: initialising a fresh session and
then calling initialize again with the identical one-row batch doubles the
van inventory entry, so the VanInventory snapshots are not identical. -/
theorem initialize_twice_counterexample :
    let rows : List SupervisionRow :=
      [{ customerCode := "C1", itemCode := "I1", itemName := "n",
         recommendedQuantity := 3, tier := "CONSIDER", probabilityPercent := 50,
         urgencyScore := 1 }]
    (initializeFromRecommendations (initializeFromRecommendations freshSession rows)
        rows).vanInventory ≠
      (initializeFromRecommendations freshSession rows).vanInventory := by
  intro rows
  intro h
  have h1 : (initializeFromRecommendations (initializeFromRecommendations freshSession rows)
      rows).vanInventory = [("I1", 6)] := by decide
  have h2 : (initializeFromRecommendations freshSession rows).vanInventory = [("I1", 3)] := by
    decide
  rw [h1, h2] at h
  simp at h

/-- Claim C9, amended: with one batch row per customer-item pair, calling
initialize a second time on the same session with the identical batch leaves
the CustomerState map and the adjustments map identical, but adds every
item's batch total to the van inventory again, doubling it; identical
VanInventory snapshots therefore fail. -/
theorem initialize_twice_behaviour (rows : List SupervisionRow)
    (hnd : (rows.map (fun r => (r.customerCode, r.itemCode))).Nodup) :
    (initializeFromRecommendations (initializeFromRecommendations freshSession rows)
        rows).customerRecommendations =
      (initializeFromRecommendations freshSession rows).customerRecommendations ∧
    (initializeFromRecommendations (initializeFromRecommendations freshSession rows)
        rows).adjustments =
      (initializeFromRecommendations freshSession rows).adjustments ∧
    ∀ i, vanGet (initializeFromRecommendations (initializeFromRecommendations freshSession rows)
        rows) i =
      2 * vanGet (initializeFromRecommendations freshSession rows) i := by
  have hbind := foldl_initStep_binding rows freshSession hnd
  have hcrs1 : (initializeFromRecommendations freshSession rows).customerRecommendations =
      (rows.foldl initStep freshSession).customerRecommendations := rfl
  have hbind1 : ∀ row ∈ rows,
      ∃ cr, (initializeFromRecommendations freshSession rows).customerRecommendations.lookup
          row.customerCode = some cr ∧
        cr.items.lookup row.itemCode = some (itemRecOf row) := by
    intro row hrow
    rw [hcrs1]
    exact hbind row hrow
  have hid : (rows.foldl initStep
      (initializeFromRecommendations freshSession rows)).customerRecommendations =
      (initializeFromRecommendations freshSession rows).customerRecommendations :=
    foldl_initStep_idempotent_crs rows _ hbind1
  have hcrs2 : (initializeFromRecommendations (initializeFromRecommendations freshSession rows)
      rows).customerRecommendations =
      (initializeFromRecommendations freshSession rows).customerRecommendations := by
    show (rows.foldl initStep
      (initializeFromRecommendations freshSession rows)).customerRecommendations = _
    exact hid
  refine ⟨hcrs2, ?_, ?_⟩
  · show (rows.foldl initStep
        (initializeFromRecommendations freshSession rows)).customerRecommendations.map
        (fun p => (p.1, ([] : List (String × Int)))) = _
    rw [hid]
    rfl
  · intro i
    have hv1 : vanGet (initializeFromRecommendations freshSession rows) i =
        vanGet freshSession i + sumQtyFor rows i := vanGet_foldl_initStep rows freshSession i
    have hv2 : vanGet (initializeFromRecommendations
        (initializeFromRecommendations freshSession rows) rows) i =
        vanGet (initializeFromRecommendations freshSession rows) i + sumQtyFor rows i :=
      vanGet_foldl_initStep rows _ i
    have hv0 : vanGet freshSession i = 0 := rfl
    omega

/-- Witness for the amended C9. -/
theorem initialize_twice_behaviour_witness :
    let rows : List SupervisionRow :=
      [{ customerCode := "C1", itemCode := "I1", itemName := "n",
         recommendedQuantity := 3, tier := "CONSIDER", probabilityPercent := 50,
         urgencyScore := 1 }]
    (initializeFromRecommendations (initializeFromRecommendations freshSession rows)
        rows).customerRecommendations =
      (initializeFromRecommendations freshSession rows).customerRecommendations ∧
    (initializeFromRecommendations (initializeFromRecommendations freshSession rows)
        rows).adjustments =
      (initializeFromRecommendations freshSession rows).adjustments ∧
    ∀ i, vanGet (initializeFromRecommendations (initializeFromRecommendations freshSession rows)
        rows) i =
      2 * vanGet (initializeFromRecommendations freshSession rows) i := by
  intro rows
  exact initialize_twice_behaviour rows (by decide)

/-! ### Van-load constraint lemmas -/

theorem mem_uniqueInOrder_aux (l : List String) :
    ∀ acc a, a ∈ l.foldl (fun acc a => if a ∈ acc then acc else acc ++ [a]) acc ↔
      a ∈ acc ∨ a ∈ l := by
  induction l with
  | nil =>
    intro acc a
    simp
  | cons b rest ih =>
    intro acc a
    rw [List.foldl_cons]
    by_cases hb : b ∈ acc
    · rw [if_pos hb]
      rw [ih acc a]
      constructor
      · rintro (h | h)
        · exact Or.inl h
        · exact Or.inr (List.mem_cons_of_mem b h)
      · rintro (h | h)
        · exact Or.inl h
        · rcases List.mem_cons.mp h with rfl | h
          · exact Or.inl hb
          · exact Or.inr h
    · rw [if_neg hb, ih (acc ++ [b]) a]
      simp only [List.mem_append, List.mem_singleton, List.mem_cons]
      tauto

theorem mem_uniqueInOrder (l : List String) (a : String) :
    a ∈ uniqueInOrder l ↔ a ∈ l := by
  unfold uniqueInOrder
  rw [mem_uniqueInOrder_aux l [] a]
  simp

theorem nodup_uniqueInOrder_aux (l : List String) :
    ∀ acc, acc.Nodup → (l.foldl (fun acc a => if a ∈ acc then acc else acc ++ [a]) acc).Nodup := by
  induction l with
  | nil =>
    intro acc h
    exact h
  | cons b rest ih =>
    intro acc h
    rw [List.foldl_cons]
    by_cases hb : b ∈ acc
    · rw [if_pos hb]
      exact ih acc h
    · rw [if_neg hb]
      apply ih
      rw [List.nodup_append]
      exact ⟨h, List.nodup_singleton b, by simpa using fun hc => hb hc⟩

theorem nodup_uniqueInOrder (l : List String) : (uniqueInOrder l).Nodup :=
  nodup_uniqueInOrder_aux l [] List.nodup_nil

theorem allocateRows_itemCode (l : List RecRow) (rem : ℚ) :
    ∀ r2 ∈ allocateRows l rem, ∃ r ∈ l, r2.itemCode = r.itemCode := by
  induction l generalizing rem with
  | nil =>
    intro r2 h
    cases h
  | cons r rest ih =>
    intro r2 h2
    unfold allocateRows at h2
    split at h2
    · rcases List.mem_cons.mp h2 with rfl | hm
      · exact ⟨r, List.mem_cons_self r rest, rfl⟩
      · obtain ⟨r3, hr3, he⟩ := ih rem r2 hm
        exact ⟨r3, List.mem_cons_of_mem r hr3, he⟩
    · rcases List.mem_cons.mp h2 with rfl | hm
      · exact ⟨r, List.mem_cons_self r rest, rfl⟩
      · obtain ⟨r3, hr3, he⟩ := ih _ r2 hm
        exact ⟨r3, List.mem_cons_of_mem r hr3, he⟩

theorem allocateRows_nonneg (l : List RecRow) (rem : ℚ)
    (hq : ∀ r ∈ l, 0 ≤ r.recommendedQuantity) :
    ∀ r2 ∈ allocateRows l rem, 0 ≤ r2.recommendedQuantity := by
  induction l generalizing rem with
  | nil =>
    intro r2 h
    cases h
  | cons r rest ih =>
    intro r2 h2
    unfold allocateRows at h2
    split at h2
    · rcases List.mem_cons.mp h2 with rfl | hm
      · exact le_refl 0
      · exact ih rem (fun r3 h3 => hq r3 (List.mem_cons_of_mem r h3)) r2 hm
    · rename_i hrem
      rcases List.mem_cons.mp h2 with rfl | hm
      · show (0 : ℚ) ≤ min r.recommendedQuantity rem
        exact le_min (hq r (List.mem_cons_self r rest)) (by linarith [not_le.mp hrem])
      · exact ih _ (fun r3 h3 => hq r3 (List.mem_cons_of_mem r h3)) r2 hm

theorem allocateRows_sum_le (l : List RecRow) (rem : ℚ)
    (hq : ∀ r ∈ l, 0 ≤ r.recommendedQuantity) :
    ((allocateRows l rem).map RecRow.recommendedQuantity).sum ≤ max rem 0 := by
  induction l generalizing rem with
  | nil =>
    unfold allocateRows
    simp only [List.map_nil, List.sum_nil]
    exact le_max_right rem 0
  | cons r rest ih =>
    unfold allocateRows
    split
    · rename_i hrem
      rw [List.map_cons, List.sum_cons]
      have := ih rem (fun r3 h3 => hq r3 (List.mem_cons_of_mem r h3))
      simp only []
      have hmax : max rem 0 = 0 := max_eq_right hrem
      rw [hmax] at this ⊢
      linarith
    · rename_i hrem
      push_neg at hrem
      rw [List.map_cons, List.sum_cons]
      have hq0 : 0 ≤ r.recommendedQuantity := hq r (List.mem_cons_self r rest)
      have ha0 : 0 ≤ min r.recommendedQuantity rem := le_min hq0 (le_of_lt hrem)
      have har : min r.recommendedQuantity rem ≤ rem := min_le_right _ _
      have := ih (rem - min r.recommendedQuantity rem)
        (fun r3 h3 => hq r3 (List.mem_cons_of_mem r h3))
      have hmax1 : max (rem - min r.recommendedQuantity rem) 0 =
          rem - min r.recommendedQuantity rem := max_eq_left (by linarith)
      rw [hmax1] at this
      have hmax2 : max rem 0 = rem := max_eq_left (le_of_lt hrem)
      rw [hmax2]
      linarith

theorem sortByPriorityDesc_perm (l : List RecRow) : (sortByPriorityDesc l).Perm l :=
  List.perm_insertionSort _ l

theorem constrainGroup_itemCode (group : List RecRow) (c : String)
    (hall : ∀ r ∈ group, r.itemCode = c) :
    ∀ r2 ∈ constrainGroup group, r2.itemCode = c := by
  intro r2 h2
  unfold constrainGroup at h2
  match group, hall with
  | [], _ => cases h2
  | g :: rest, hall =>
    simp only [] at h2
    split at h2
    · obtain ⟨r, hr, he⟩ := allocateRows_itemCode _ _ r2 h2
      have : r ∈ g :: rest := ((sortByPriorityDesc_perm (g :: rest)).mem_iff).mp hr
      rw [he]
      exact hall r this
    · exact hall r2 h2

theorem constrainGroup_nonneg (group : List RecRow)
    (hq : ∀ r ∈ group, 0 ≤ r.recommendedQuantity) :
    ∀ r2 ∈ constrainGroup group, 0 ≤ r2.recommendedQuantity := by
  intro r2 h2
  unfold constrainGroup at h2
  match group, hq with
  | [], _ => cases h2
  | g :: rest, hq =>
    simp only [] at h2
    split at h2
    · apply allocateRows_nonneg _ _ ?_ r2 h2
      intro r hr
      exact hq r (((sortByPriorityDesc_perm (g :: rest)).mem_iff).mp hr)
    · exact hq r2 h2

theorem constrainGroup_sum_le (group : List RecRow) (v : ℚ)
    (hne : group ≠ [])
    (hvl : ∀ r ∈ group, r.vanLoad = v)
    (hv : 0 ≤ v)
    (hq : ∀ r ∈ group, 0 ≤ r.recommendedQuantity) :
    ((constrainGroup group).map RecRow.recommendedQuantity).sum ≤ v := by
  unfold constrainGroup
  match group, hne, hvl, hq with
  | g :: rest, _, hvl, hq =>
    simp only []
    have hgv : g.vanLoad = v := hvl g (List.mem_cons_self g rest)
    split
    · rename_i hlt
      have hqs : ∀ r ∈ sortByPriorityDesc (g :: rest), 0 ≤ r.recommendedQuantity :=
        fun r hr => hq r (((sortByPriorityDesc_perm (g :: rest)).mem_iff).mp hr)
      rw [hgv]
      have := allocateRows_sum_le (sortByPriorityDesc (g :: rest)) v hqs
      rw [max_eq_left hv] at this
      exact this
    · rename_i hge
      push_neg at hge
      rw [← hgv]
      exact hge

theorem filter_pos_sum_le (l : List RecRow)
    (hq : ∀ r ∈ l, 0 ≤ r.recommendedQuantity) :
    (((l.filter (fun r => 0 < r.recommendedQuantity)).map RecRow.recommendedQuantity).sum) ≤
      ((l.map RecRow.recommendedQuantity).sum) := by
  induction l with
  | nil => simp
  | cons r rest ih =>
    have hq0 : 0 ≤ r.recommendedQuantity := hq r (List.mem_cons_self r rest)
    have ihr := ih (fun r3 h3 => hq r3 (List.mem_cons_of_mem r h3))
    rw [List.filter_cons]
    split
    · rw [List.map_cons, List.sum_cons, List.map_cons, List.sum_cons]
      linarith
    · rw [List.map_cons, List.sum_cons]
      linarith

theorem flatMap_filter_eq (items : List String) (f : String → List RecRow) (i : String)
    (hcodes : ∀ c ∈ items, ∀ r ∈ f c, r.itemCode = c)
    (hnd : items.Nodup) (hi : i ∈ items) :
    (items.flatMap f).filter (fun r => r.itemCode = i) = f i := by
  induction items with
  | nil => cases hi
  | cons c rest ih =>
    rw [List.nodup_cons] at hnd
    rw [List.flatMap_cons, List.filter_append]
    rcases List.mem_cons.mp hi with rfl | hm
    · have h1 : (f i).filter (fun r => r.itemCode = i) = f i := by
        apply List.filter_eq_self.mpr
        intro r hr
        simp [hcodes i (List.mem_cons_self i rest) r hr]
      have h2 : (rest.flatMap f).filter (fun r => r.itemCode = i) = [] := by
        apply List.filter_eq_nil_iff.mpr
        intro r hr
        rcases List.mem_flatMap.mp hr with ⟨c2, hc2, hrc2⟩
        have : r.itemCode = c2 := hcodes c2 (List.mem_cons_of_mem i hc2) r hrc2
        simp [this]
        intro hcc
        exact hnd.1 (hcc ▸ hc2)
      rw [h1, h2, List.append_nil]
    · have hic : i ≠ c := by
        intro hh
        exact hnd.1 (hh ▸ hm)
      have h1 : (f c).filter (fun r => r.itemCode = i) = [] := by
        apply List.filter_eq_nil_iff.mpr
        intro r hr
        have : r.itemCode = c := hcodes c (List.mem_cons_self c rest) r hr
        simp [this]
        exact fun hh => hic hh.symm
      rw [h1, List.nil_append]
      exact ih (fun c2 hc2 => hcodes c2 (List.mem_cons_of_mem c hc2)) hnd.2 hm

/-! ### Claim C1: the capacity constraint pass -/

/-- Claim C1: after the van-load constraint pass, every output row has a
strictly positive quantity (zero rows are dropped), and for every item the
total recommended quantity over all customers is at most that item's van
load.  The greedy descending-priority allocation is the definition
allocateRows/constrainGroup, translated from _apply_van_load_constraints. -/
theorem van_load_constraints_sound (df : List RecRow)
    (hq : ∀ r ∈ df, 0 ≤ r.recommendedQuantity)
    (hvl : ∀ r ∈ df, ∀ r2 ∈ df, r.itemCode = r2.itemCode → r.vanLoad = r2.vanLoad)
    (hvp : ∀ r ∈ df, 0 ≤ r.vanLoad) :
    (∀ r ∈ applyVanLoadConstraints df, 0 < r.recommendedQuantity) ∧
    (∀ r0 ∈ df, (((applyVanLoadConstraints df).filter
        (fun r => r.itemCode = r0.itemCode)).map RecRow.recommendedQuantity).sum ≤
      r0.vanLoad) := by
  constructor
  · intro r hr
    unfold applyVanLoadConstraints at hr
    rw [List.mem_filter] at hr
    simpa using hr.2
  · intro r0 hr0
    set i := r0.itemCode with hidef
    set group := df.filter (fun r => r.itemCode = i) with hgroup
    have hgmem : ∀ r ∈ group, r ∈ df ∧ r.itemCode = i := by
      intro r hr
      rw [hgroup, List.mem_filter] at hr
      refine ⟨hr.1, by simpa using hr.2⟩
    have hr0g : r0 ∈ group := by
      rw [hgroup, List.mem_filter]
      simp [hidef]
      exact hr0
    have hgne : group ≠ [] := fun hh => by
      rw [hh] at hr0g
      cases hr0g
    have hgvl : ∀ r ∈ group, r.vanLoad = r0.vanLoad := by
      intro r hr
      exact hvl r (hgmem r hr).1 r0 hr0 ((hgmem r hr).2.trans hidef.symm)
    have hgq : ∀ r ∈ group, 0 ≤ r.recommendedQuantity :=
      fun r hr => hq r (hgmem r hr).1
    have hgsum := constrainGroup_sum_le group r0.vanLoad hgne hgvl (hvp r0 hr0) hgq
    have hcodes : ∀ c ∈ uniqueInOrder (df.map RecRow.itemCode),
        ∀ r ∈ constrainGroup (df.filter (fun r => r.itemCode = c)), r.itemCode = c := by
      intro c _ r hr
      apply constrainGroup_itemCode _ c ?_ r hr
      intro r2 hr2
      rw [List.mem_filter] at hr2
      simpa using hr2.2
    have hiu : i ∈ uniqueInOrder (df.map RecRow.itemCode) := by
      rw [mem_uniqueInOrder]
      exact hidef ▸ List.mem_map_of_mem RecRow.itemCode hr0
    have hflat := flatMap_filter_eq (uniqueInOrder (df.map RecRow.itemCode))
      (fun c => constrainGroup (df.filter (fun r => r.itemCode = c))) i hcodes
      (nodup_uniqueInOrder _) hiu
    unfold applyVanLoadConstraints
    rw [List.filter_comm, hflat]
    have hgnn := constrainGroup_nonneg group hgq
    calc (((constrainGroup group).filter (fun r => 0 < r.recommendedQuantity)).map
          RecRow.recommendedQuantity).sum
        ≤ ((constrainGroup group).map RecRow.recommendedQuantity).sum :=
          filter_pos_sum_le _ hgnn
      _ ≤ r0.vanLoad := hgsum

/-- Witness for C1 at the spec's worked example: van stock 5 of item X,
customer A recommended 4 at priority 80, customer B recommended 4 at
priority 50. -/
theorem van_load_constraints_sound_witness :
    let df : List RecRow :=
      [{ customerCode := "A", itemCode := "X", recommendedQuantity := 4, vanLoad := 5,
         priorityScore := 80 },
       { customerCode := "B", itemCode := "X", recommendedQuantity := 4, vanLoad := 5,
         priorityScore := 50 }]
    (∀ r ∈ applyVanLoadConstraints df, 0 < r.recommendedQuantity) ∧
    (∀ r0 ∈ df, (((applyVanLoadConstraints df).filter
        (fun r => r.itemCode = r0.itemCode)).map RecRow.recommendedQuantity).sum ≤
      r0.vanLoad) := by
  intro df
  exact van_load_constraints_sound df (by decide) (by decide) (by decide)

/-! ### Claim C5 (amended): direct priority-to-quantity mapping -/

theorem ratTrunc_intCast (m : ℤ) : ratTrunc ((m : ℤ) : ℚ) = m := by
  unfold ratTrunc
  split
  · exact Int.floor_intCast m
  · exact Int.ceil_intCast m

/-- Counterexample to claim C5 as stated: at priority 100, average quantity
2.4 and van stock 10, the code first rounds the average (to 2), multiplies
by 1.5 and rounds again, giving 3; the spec's single-rounding formula
round(2.4 x 1.5) = round(3.6) gives 4. -/
theorem direct_quantity_double_rounding_counterexample :
    calculateDirectQuantity 100 (12/5) 10 = 3 ∧ specDirectQuantityClaim 100 (12/5) 10 = 4 := by
  constructor
  · norm_num [calculateDirectQuantity, ratTrunc, round_eq]
  · norm_num [specDirectQuantityClaim, ratTrunc, round_eq]

/-- Claim C5, amended: a scored customer-item pair is skipped exactly when
its priority is below 15; otherwise the emitted quantity is
clamp(round(max(1, round(avg_quantity)) x (0.3 + priority/100 x 1.2)), 1,
van stock) - i.e. the average is rounded (and floored at 1) before the
multiplier is applied, rather than the product being rounded once. -/
theorem generate_skip_and_quantity (priority avgQty : ℚ) (n : ℤ) :
    (generateForItem priority avgQty (n : ℚ) = none ↔ priority < 15) ∧
    (15 ≤ priority → generateForItem priority avgQty (n : ℚ) =
      some (max 1 (min (round (((max 1 (round avgQty) : ℤ) : ℚ) *
        (0.3 + (priority / 100) * 1.2))) n))) := by
  have hval : calculateDirectQuantity priority avgQty (n : ℚ) =
      max 1 (min (round (((max 1 (round avgQty) : ℤ) : ℚ) * (0.3 + (priority / 100) * 1.2))) n) := by
    simp only [calculateDirectQuantity]
    have hcast : (max (1 : ℚ) (min ((round (((max 1 (round avgQty) : ℤ) : ℚ) *
        (0.3 + (priority / 100) * 1.2)) : ℤ) : ℚ) ((n : ℤ) : ℚ))) =
        (((max 1 (min (round (((max 1 (round avgQty) : ℤ) : ℚ) *
          (0.3 + (priority / 100) * 1.2))) n) : ℤ) : ℚ)) := by
      push_cast
      rfl
    rw [hcast, ratTrunc_intCast]
  have hpos : 0 < calculateDirectQuantity priority avgQty (n : ℚ) := by
    rw [hval]
    have : (1 : ℤ) ≤ max 1 (min (round (((max 1 (round avgQty) : ℤ) : ℚ) *
        (0.3 + (priority / 100) * 1.2))) n) := le_max_left _ _
    omega
  constructor
  · unfold generateForItem
    by_cases hp : priority < 15
    · simp [hp]
    · simp only [if_neg hp]
      rw [if_pos hpos]
      simp [hp]
  · intro hp
    unfold generateForItem
    rw [if_neg (by linarith), if_pos hpos, hval]

/-- Witness for the amended C5 at priority 100, average 2.4, van stock 10:
the implication hypothesis 15 <= priority is discharged concretely. -/
theorem generate_skip_and_quantity_witness :
    (15 : ℚ) ≤ 100 ∧ generateForItem 100 (12/5) ((10 : ℤ) : ℚ) =
      some (max 1 (min (round (((max 1 (round (12/5 : ℚ)) : ℤ) : ℚ) *
        (0.3 + ((100 : ℚ) / 100) * 1.2))) 10)) :=
  ⟨by norm_num, (generate_skip_and_quantity 100 (12/5) 10).2 (by norm_num)⟩

/-! ## C4: cycle fallback and strict positivity -/

theorem listGetD_mem {l : List ℚ} : ∀ {n : ℕ}, n < l.length → ∀ d : ℚ, l.getD n d ∈ l := by
  induction l with
  | nil => intro n h d; simp at h
  | cons a t ih =>
    intro n h d
    cases n with
    | zero => rw [List.getD_cons_zero]; exact List.mem_cons_self a t
    | succ m =>
      rw [List.getD_cons_succ]
      exact List.mem_cons_of_mem a (ih (by simpa using h) d)

theorem sortRat_perm (l : List ℚ) : (sortRat l).Perm l := List.perm_insertionSort _ l

theorem sum_ge_length (l : List ℚ) (hx : ∀ x ∈ l, 1 ≤ x) : (l.length : ℚ) ≤ l.sum := by
  induction l with
  | nil => simp
  | cons a t ih =>
    simp only [List.length_cons, List.sum_cons]
    have ht := ih (fun x hx2 => hx x (List.mem_cons_of_mem a hx2))
    have ha := hx a (List.mem_cons_self a t)
    push_cast
    linarith

theorem npMean_ge_one (l : List ℚ) (hne : l ≠ []) (hx : ∀ x ∈ l, 1 ≤ x) : 1 ≤ npMean l := by
  unfold npMean
  have hl : 0 < (l.length : ℚ) := by exact_mod_cast List.length_pos.mpr hne
  rw [le_div_iff hl, one_mul]
  exact sum_ge_length l hx

theorem npPercentile_ge_one (l : List ℚ) (q : ℚ) (hne : l ≠ [])
    (hx : ∀ x ∈ l, 1 ≤ x) (hq0 : 0 ≤ q) (hq1 : q ≤ 100) : 1 ≤ npPercentile l q := by
  have hperm : (sortRat l).Perm l := sortRat_perm l
  have hsx : ∀ x ∈ sortRat l, 1 ≤ x := fun x hx2 => hx x (hperm.mem_iff.mp hx2)
  have hlen : (sortRat l).length = l.length := hperm.length_eq
  have hlpos : 0 < l.length := List.length_pos.mpr hne
  simp only [npPercentile]
  rw [if_neg (by omega)]
  set n := (sortRat l).length with hn
  set pos := ((n : ℚ) - 1) * q / 100 with hposdef
  have hn1 : (1 : ℚ) ≤ (n : ℚ) := by exact_mod_cast (by omega : 1 ≤ n)
  have hpos0 : 0 ≤ pos := by
    rw [hposdef]
    apply div_nonneg _ (by norm_num)
    exact mul_nonneg (by linarith) hq0
  have hposle : pos ≤ (n : ℚ) - 1 := by
    rw [hposdef, div_le_iff (by norm_num : (0 : ℚ) < 100)]
    nlinarith
  set i : ℤ := ⌊pos⌋ with hidef
  have hi0 : 0 ≤ i := Int.floor_nonneg.mpr hpos0
  have hile : (i : ℚ) ≤ pos := Int.floor_le pos
  have hilt : pos < (i : ℚ) + 1 := Int.lt_floor_add_one pos
  have hin : i ≤ (n : ℤ) - 1 := by
    have h2 : (i : ℚ) ≤ (((n : ℤ) - 1 : ℤ) : ℚ) := by push_cast; linarith
    exact_mod_cast h2
  have hitn : i.toNat < n := by omega
  have hlo : 1 ≤ (sortRat l).getD i.toNat 0 := hsx _ (listGetD_mem hitn 0)
  set lo := (sortRat l).getD i.toNat 0 with hlodef
  have hhib : 1 ≤ (sortRat l).getD (i.toNat + 1) lo := by
    by_cases hcase : i.toNat + 1 < n
    · exact hsx _ (listGetD_mem hcase lo)
    · rw [List.getD_eq_default _ _ (by omega)]
      exact hlo
  set hi2 := (sortRat l).getD (i.toNat + 1) lo with hhidef
  have hf0 : 0 ≤ pos - (i : ℚ) := by linarith
  have hf1 : pos - (i : ℚ) ≤ 1 := by linarith
  nlinarith [mul_nonneg hf0 (by linarith : (0 : ℚ) ≤ hi2 - 1),
    mul_nonneg (by linarith : (0 : ℚ) ≤ 1 - (pos - (i : ℚ)))
      (by linarith : (0 : ℚ) ≤ lo - 1)]

theorem extractPurchaseGaps_eq_nil (h : List Event) (hd : distinctDates h < 2) :
    extractPurchaseGaps h = [] := by
  have hd2 : ((h.map Event.trxDate).dedup).length < 2 := hd
  simp [extractPurchaseGaps, hd2]

theorem extractPurchaseGaps_ge_one (h : List Event) :
    ∀ g ∈ extractPurchaseGaps h, 1 ≤ g := by
  intro g hg
  simp only [extractPurchaseGaps] at hg
  split at hg
  · simp at hg
  · split at hg
    · simp at hg
    · obtain ⟨p, hp, hfp⟩ := List.mem_filterMap.mp hg
      split at hfp
      · rename_i hpos
        injection hfp with hfp
        have h1 : (1 : ℤ) ≤ p.2 - p.1 := by omega
        rw [← hfp]
        exact_mod_cast h1
      · simp at hfp

theorem analyze_consistency_bounds (O : AnalyticOracle) (gaps : List ℚ) :
    0 ≤ (analyzePurchasePattern O gaps).consistency ∧
      (analyzePurchasePattern O gaps).consistency ≤ 1 := by
  have hstd : 0 ≤ npStd O gaps := O.sqrt_nonneg _
  simp only [analyzePurchasePattern]
  split
  · exact ⟨le_refl 0, by norm_num⟩
  · dsimp only
    by_cases hm : 0 < npMean gaps
    · rw [if_pos hm]
      have hx0 : 0 ≤ npStd O gaps / npMean gaps := div_nonneg hstd (le_of_lt hm)
      have h1 : min 1 (npStd O gaps / npMean gaps) ≤ 1 := min_le_left _ _
      have h2 : 0 ≤ min 1 (npStd O gaps / npMean gaps) := le_min (by norm_num) hx0
      constructor <;> linarith
    · rw [if_neg hm]
      exact ⟨le_refl 0, by norm_num⟩

theorem analyze_baseCycle_ge_one (O : AnalyticOracle) (gaps : List ℚ)
    (hne : gaps ≠ []) (hx : ∀ g ∈ gaps, 1 ≤ g) :
    1 ≤ (analyzePurchasePattern O gaps).baseCycle := by
  have hmed : 1 ≤ npMedian gaps :=
    npPercentile_ge_one gaps 50 hne hx (by norm_num) (by norm_num)
  have hmean : 1 ≤ npMean gaps := npMean_ge_one gaps hne hx
  simp only [analyzePurchasePattern]
  rw [if_neg (by simpa [List.isEmpty_iff] using hne)]
  dsimp only
  split_ifs <;> linarith

theorem zip_mul_sum_ge (vs ws : List ℚ) (hlen : vs.length = ws.length)
    (hv : ∀ v ∈ vs, 1 ≤ v) (hw : ∀ w ∈ ws, 0 ≤ w) :
    ws.sum ≤ ((vs.zip ws).map (fun p => p.1 * p.2)).sum := by
  induction vs generalizing ws with
  | nil =>
    cases ws with
    | nil => simp
    | cons w u => simp at hlen
  | cons v t ih =>
    cases ws with
    | nil => simp at hlen
    | cons w u =>
      simp only [List.zip_cons_cons, List.map_cons, List.sum_cons]
      have h1 := ih u (by simpa using hlen)
        (fun x hx2 => hv x (List.mem_cons_of_mem _ hx2))
        (fun x hx2 => hw x (List.mem_cons_of_mem _ hx2))
      have hv1 := hv v (List.mem_cons_self _ _)
      have hw1 := hw w (List.mem_cons_self _ _)
      have h2 : w ≤ v * w := le_mul_of_one_le_left hw1 hv1
      linarith

theorem applyAdaptiveWeighting_ge_one (O : AnalyticOracle) (gaps : List ℚ)
    (rp : RecencyParams) (hne : gaps ≠ []) (hx : ∀ g ∈ gaps, 1 ≤ g) :
    1 ≤ applyAdaptiveWeighting O gaps rp := by
  simp only [applyAdaptiveWeighting]
  set ws := max 2 (ratTrunc ((gaps.length : ℚ) * rp.windowFrac)).toNat with hws
  set recentGaps := gaps.drop (gaps.length - ws) with hrg
  have hlpos : 0 < gaps.length := List.length_pos.mpr hne
  have h2w : 2 ≤ ws := le_max_left _ _
  have hrlen : 0 < recentGaps.length := by
    rw [hrg, List.length_drop]
    omega
  have hrne : recentGaps ≠ [] := List.length_pos.mp hrlen
  have hrx : ∀ g ∈ recentGaps, 1 ≤ g := by
    intro g hg
    rw [hrg] at hg
    exact hx g (List.mem_of_mem_drop hg)
  split
  · obtain ⟨a, t, hat⟩ := List.exists_cons_of_ne_nil hrne
    rw [hat, List.headD_cons]
    exact hrx a (hat ▸ List.mem_cons_self a t)
  · rename_i h1
    have hrlen2 : 2 ≤ recentGaps.length := by omega
    set weights := (npLinspace 0 (rp.strength * 2) recentGaps.length).map O.exp with hwdef
    have hwlen : weights.length = recentGaps.length := by
      rw [hwdef, List.length_map, npLinspace, if_neg (by omega : ¬ recentGaps.length ≤ 1),
        List.length_map, List.length_range]
    have hwpos : ∀ w ∈ weights, 0 < w := by
      intro w hw2
      rw [hwdef] at hw2
      obtain ⟨x, _, rfl⟩ := List.mem_map.mp hw2
      exact O.exp_pos x
    have hwne : weights ≠ [] := by
      intro hnil
      rw [hnil] at hwlen
      simp at hwlen
      omega
    have hwsum : 0 < weights.sum := List.sum_pos weights hwpos hwne
    set nw := weights.map (fun w => w / weights.sum) with hnwdef
    have hnwlen : nw.length = recentGaps.length := by
      rw [hnwdef, List.length_map]; exact hwlen
    have hnwpos : ∀ w ∈ nw, 0 < w := by
      intro w hw2
      rw [hnwdef] at hw2
      obtain ⟨x, hx2, rfl⟩ := List.mem_map.mp hw2
      exact div_pos (hwpos x hx2) hwsum
    have hnwne : nw ≠ [] := by
      intro hnil
      rw [hnil] at hnwlen
      simp at hnwlen
      omega
    have hnwsum : 0 < nw.sum := List.sum_pos nw hnwpos hnwne
    unfold npAverage
    rw [le_div_iff hnwsum, one_mul]
    exact zip_mul_sum_ge recentGaps nw hnwlen.symm hrx
      (fun w hw2 => le_of_lt (hnwpos w hw2))

theorem calculateAdaptiveCycle_pos (O : AnalyticOracle) (gaps : List ℚ)
    (hne : gaps ≠ []) (hx : ∀ g ∈ gaps, 1 ≤ g) :
    0 < (calculateAdaptiveCycle O gaps (analyzePurchasePattern O gaps)).1 := by
  have hbase := analyze_baseCycle_ge_one O gaps hne hx
  have hcons := analyze_consistency_bounds O gaps
  simp only [calculateAdaptiveCycle]
  split
  · dsimp only
    linarith
  · dsimp only
    have hw := applyAdaptiveWeighting_ge_one O gaps
      (getAdaptiveRecencyParams (analyzePurchasePattern O gaps)) hne hx
    nlinarith [hcons.1, hcons.2, hbase, hw,
      mul_nonneg hcons.1
        (by linarith : (0 : ℚ) ≤ (analyzePurchasePattern O gaps).baseCycle - 1),
      mul_nonneg (by linarith [hcons.2] :
          (0 : ℚ) ≤ 1 - (analyzePurchasePattern O gaps).consistency)
        (by linarith : (0 : ℚ) ≤ applyAdaptiveWeighting O gaps
          (getAdaptiveRecencyParams (analyzePurchasePattern O gaps)) - 1)]

theorem removeOutliers_subset (O : AnalyticOracle) (gaps : List ℚ) :
    ∀ x ∈ removeOutliersDynamically O gaps, x ∈ gaps := by
  intro x hx2
  simp only [removeOutliersDynamically] at hx2
  repeat' split at hx2
  all_goals first
    | exact hx2
    | exact (List.mem_filter.mp hx2).1

/-- C4: with fewer than 2 distinct purchase dates, calculate_cycle falls back
to (30.0, 0.0); and for every item history the returned cycle_days is
strictly positive. -/
theorem cycle_fallback_and_positive (O : AnalyticOracle) (h : List Event) :
    (distinctDates h < 2 → calculateCycle O h = (30, 0)) ∧
      0 < (calculateCycle O h).1 := by
  constructor
  · intro hd
    have hg := extractPurchaseGaps_eq_nil h hd
    simp [calculateCycle, hg, getFallbackCycle]
  · have hx := extractPurchaseGaps_ge_one h
    simp only [calculateCycle]
    split
    · norm_num [getFallbackCycle]
    · split
      · norm_num [getFallbackCycle]
      · rename_i hgne
        have hgne2 : extractPurchaseGaps h ≠ [] := by
          simpa [List.isEmpty_iff] using hgne
        split
        · have hmed : 1 ≤ npMedian (extractPurchaseGaps h) :=
            npPercentile_ge_one _ 50 hgne2 hx (by norm_num) (by norm_num)
          dsimp only
          linarith
        · rename_i hcl
          have hclne : removeOutliersDynamically O (extractPurchaseGaps h) ≠ [] := by
            simpa [List.isEmpty_iff] using hcl
          have hclx : ∀ g ∈ removeOutliersDynamically O (extractPurchaseGaps h), 1 ≤ g :=
            fun g hg => hx g (removeOutliers_subset O _ g hg)
          exact calculateAdaptiveCycle_pos O _ hclne hclx

/-- Witness for C4 at the empty history: fewer than 2 distinct dates, the
fallback (30, 0) is returned, and the cycle is strictly positive. -/
theorem cycle_fallback_and_positive_witness :
    distinctDates ([] : List Event) < 2 ∧
      calculateCycle unitOracle [] = (30, 0) ∧
      0 < (calculateCycle unitOracle []).1 :=
  ⟨by decide, (cycle_fallback_and_positive unitOracle []).1 (by decide),
    (cycle_fallback_and_positive unitOracle []).2⟩

/-! ## C6: missing reference date handling -/

theorem timingNeed_none_date_error (O : AnalyticOracle) (ih : List Event)
    (ch : Option (List Event)) (hne : ih ≠ []) :
    calculateTimingNeed O ih ch none =
      .error "target_date is required for deterministic timing calculations" := by
  unfold calculateTimingNeed
  rw [if_neg (by simpa [List.isEmpty_iff] using hne)]

theorem activityScore_none_date_error (O : AnalyticOracle) (ch : List Event)
    (hne : ch ≠ []) :
    calculateActivityScore O ch none =
      .error "reference_date is required for deterministic time-weighted calculations" := by
  unfold calculateActivityScore
  rw [if_neg (by simpa [List.isEmpty_iff] using hne)]

theorem customerValue_none_date_error (O : AnalyticOracle) (cache : BenchmarkCache)
    (ch ih market : List Event) (hne : ch ≠ []) :
    ∃ e, calculateCustomerValue O cache ch ih market none = .error e := by
  unfold calculateCustomerValue
  rw [if_neg (by simpa [List.isEmpty_iff] using hne)]
  rcases hds : calculateDynamicCustomerSize O cache ch market none with e | ws
  · exact ⟨e, rfl⟩
  · rcases hri : calculateRecentItemImportance O ih ch none with e | ri
    · exact ⟨e, rfl⟩
    · have hact := activityScore_none_date_error O ch hne
      exact ⟨_, by rw [hact]⟩

theorem priorityInner_none_date_error (O : AnalyticOracle) (cache : BenchmarkCache)
    (ic : String) (ch market : List Event) (hne : ch ≠ []) :
    ∃ e, calculatePriorityInner O cache ic ch market none = .error e := by
  simp only [calculatePriorityInner]
  rcases htn : calculateTimingNeed O (ch.filter (fun e => e.itemCode = ic)) none none
    with e | tn
  · exact ⟨e, rfl⟩
  · obtain ⟨e, hcv⟩ := customerValue_none_date_error O cache ch
      (ch.filter (fun e => e.itemCode = ic)) market hne
    exact ⟨e, by rw [hcv]⟩

/-- C6 counterexample: calculate_timing_need returns 0.5 for an empty item
history BEFORE checking the reference date, so a missing date is not always
an input error; and through the priority-scoring path the raised error is
swallowed by the catch-all handler, which silently returns priority 0.0
instead of propagating an input error. -/
theorem timing_need_no_date_counterexample :
    calculateTimingNeed unitOracle [] none none = .ok 0.5 ∧
      calculatePriority unitOracle none "C" "I"
        [{ trxDate := 0, customerCode := "C", itemCode := "I", totalQuantity := 1 }] []
        none = ((0, none), none) :=
  ⟨rfl, rfl⟩

/-- C6 (amended): with a non-empty item history, calculate_timing_need with
a missing target date fails with the input error (and likewise
calculate_activity_score and _get_market_benchmark); with a non-empty
customer history the internal priority computation raises, but
calculate_priority itself catches every error and returns priority 0.0 with
an untouched cache instead of reporting it -- and with an empty item
history timing_need silently succeeds, so the claimed unconditional error
only holds for non-degenerate histories. -/
theorem missing_reference_date_raises (O : AnalyticOracle) (cache : BenchmarkCache)
    (itemHistory customerHistory market : List Event) (ch : Option (List Event))
    (customerCode itemCode : String)
    (hi : itemHistory ≠ []) (hc : customerHistory ≠ []) :
    calculateTimingNeed O itemHistory ch none =
        .error "target_date is required for deterministic timing calculations" ∧
      calculateActivityScore O customerHistory none =
        .error "reference_date is required for deterministic time-weighted calculations" ∧
      getMarketBenchmark cache market none =
        .error "target_date is required for deterministic market benchmark calculations" ∧
      (∃ e, calculatePriorityInner O cache itemCode customerHistory market none = .error e) ∧
      calculatePriority O cache customerCode itemCode customerHistory market none =
        ((0, none), cache) := by
  refine ⟨timingNeed_none_date_error O itemHistory ch hi,
    activityScore_none_date_error O customerHistory hc, rfl,
    priorityInner_none_date_error O cache itemCode customerHistory market hc, ?_⟩
  obtain ⟨e, he⟩ := priorityInner_none_date_error O cache itemCode customerHistory market hc
  unfold calculatePriority
  rw [he]

/-- Witness for the amended C6 on singleton histories: the non-emptiness
hypotheses are discharged concretely and the priority path returns the
silent (0.0, empty, unchanged cache) triple. -/
theorem missing_reference_date_raises_witness :
    ([({ trxDate := 0, customerCode := "C", itemCode := "I", totalQuantity := 1 } : Event)] ≠
        ([] : List Event)) ∧
      calculatePriority unitOracle none "C" "I"
        [{ trxDate := 0, customerCode := "C", itemCode := "I", totalQuantity := 1 }] [] none =
        ((0, none), none) :=
  ⟨by decide,
    (missing_reference_date_raises unitOracle none
      [{ trxDate := 0, customerCode := "C", itemCode := "I", totalQuantity := 1 }]
      [{ trxDate := 0, customerCode := "C", itemCode := "I", totalQuantity := 1 }] [] none "C" "I"
      (by decide) (by decide)).2.2.2.2⟩

/-! ## C2: priority range and repeatability -/

theorem roundRat_mono {x y : ℚ} (h : x ≤ y) : round x ≤ round y := by
  rw [round_eq, round_eq]
  exact Int.floor_le_floor (by linarith)

theorem round2_clamp_bounds (x : ℚ) :
    0 ≤ round2 (max 0 (min 100 x)) ∧ round2 (max 0 (min 100 x)) ≤ 100 := by
  have hy0 : (0 : ℚ) ≤ max 0 (min 100 x) := le_max_left _ _
  have hy100 : max 0 (min 100 x) ≤ 100 := max_le (by norm_num) (min_le_left _ _)
  have h0 : (0 : ℤ) ≤ round ((max 0 (min 100 x)) * 100) := by
    have h2 : round ((0 : ℚ)) ≤ round ((max 0 (min 100 x)) * 100) :=
      roundRat_mono (by linarith)
    simpa using h2
  have h1 : round ((max 0 (min 100 x)) * 100) ≤ (10000 : ℤ) := by
    have h2 : round ((max 0 (min 100 x)) * 100) ≤ round ((10000 : ℚ)) :=
      roundRat_mono (by linarith)
    have h3 : round ((10000 : ℚ)) = (10000 : ℤ) := by rw [round_eq]; norm_num
    rw [h3] at h2
    exact h2
  unfold round2
  constructor
  · apply div_nonneg _ (by norm_num : (0 : ℚ) ≤ 100)
    exact_mod_cast h0
  · rw [div_le_iff (by norm_num : (0 : ℚ) < 100)]
    calc ((round ((max 0 (min 100 x)) * 100) : ℤ) : ℚ) ≤ ((10000 : ℤ) : ℚ) := by
          exact_mod_cast h1
      _ = 100 * 100 := by norm_num

theorem getMarketBenchmark_stable (cache : BenchmarkCache) (market : List Event)
    (td : Option ℤ) (v : Option ℚ) (c2 : BenchmarkCache)
    (h : getMarketBenchmark cache market td = .ok (v, c2)) :
    getMarketBenchmark c2 market td = .ok (v, c2) := by
  cases td with
  | none => simp [getMarketBenchmark] at h
  | some d =>
    cases cache with
    | none =>
      simp only [getMarketBenchmark, marketBenchmarkCompute] at h
      split at h
      · rename_i hemp
        simp only [Except.ok.injEq, Prod.mk.injEq] at h
        obtain ⟨hv, hc⟩ := h
        subst hv
        subst hc
        simp [getMarketBenchmark, marketBenchmarkCompute, hemp]
      · rename_i hemp
        simp only [Except.ok.injEq, Prod.mk.injEq] at h
        obtain ⟨hv, hc⟩ := h
        subst hv
        subst hc
        simp [getMarketBenchmark]
    | some vd =>
      simp only [getMarketBenchmark] at h
      split at h
      · rename_i heq
        simp only [Except.ok.injEq, Prod.mk.injEq] at h
        obtain ⟨hv, hc⟩ := h
        subst hv
        subst hc
        simp [getMarketBenchmark, heq]
      · rename_i hdne
        simp only [marketBenchmarkCompute] at h
        split at h
        · rename_i hemp
          simp only [Except.ok.injEq, Prod.mk.injEq] at h
          obtain ⟨hv, hc⟩ := h
          subst hv
          subst hc
          simp [getMarketBenchmark, marketBenchmarkCompute, hemp, hdne]
        · rename_i hemp
          simp only [Except.ok.injEq, Prod.mk.injEq] at h
          obtain ⟨hv, hc⟩ := h
          subst hv
          subst hc
          simp [getMarketBenchmark]

theorem dynamicCustomerSize_stable (O : AnalyticOracle) (cache : BenchmarkCache)
    (ch market : List Event) (td : Option ℤ) (s : ℚ) (c2 : BenchmarkCache)
    (h : calculateDynamicCustomerSize O cache ch market td = .ok (s, c2)) :
    calculateDynamicCustomerSize O c2 ch market td = .ok (s, c2) := by
  simp only [calculateDynamicCustomerSize] at h ⊢
  split at h
  · rename_i hw
    rw [if_pos hw]
    simp only [Except.ok.injEq, Prod.mk.injEq] at h
    obtain ⟨hs, hc⟩ := h
    subst hs
    subst hc
    rfl
  · rename_i hw
    rw [if_neg hw]
    rcases hb : getMarketBenchmark cache market td with e | bs
    · rw [hb] at h
      simp at h
    · rw [hb] at h
      dsimp only at h
      rcases hact : calculateActivityScore O ch td with e | act
      · rw [hact] at h
        simp at h
      · rw [hact] at h
        dsimp only at h
        simp only [Except.ok.injEq, Prod.mk.injEq] at h
        obtain ⟨hs, hc⟩ := h
        have hb2 : getMarketBenchmark bs.2 market td = .ok (bs.1, bs.2) :=
          getMarketBenchmark_stable cache market td bs.1 bs.2 (by rw [hb])
        subst hs
        subst hc
        rw [hb2]

theorem customerValue_stable (O : AnalyticOracle) (cache : BenchmarkCache)
    (ch ih market : List Event) (td : Option ℤ) (s : ℚ) (c2 : BenchmarkCache)
    (h : calculateCustomerValue O cache ch ih market td = .ok (s, c2)) :
    calculateCustomerValue O c2 ch ih market td = .ok (s, c2) := by
  simp only [calculateCustomerValue] at h ⊢
  split at h
  · rename_i hemp
    rw [if_pos hemp]
    simp only [Except.ok.injEq, Prod.mk.injEq] at h
    obtain ⟨hs, hc⟩ := h
    subst hs
    subst hc
    rfl
  · rename_i hemp
    rw [if_neg hemp]
    rcases hds : calculateDynamicCustomerSize O cache ch market td with e | ws
    · rw [hds] at h
      simp at h
    · rw [hds] at h
      dsimp only at h
      have hds2 : calculateDynamicCustomerSize O ws.2 ch market td = .ok (ws.1, ws.2) :=
        dynamicCustomerSize_stable O cache ch market td ws.1 ws.2 (by rw [hds])
      rcases hri : calculateRecentItemImportance O ih ch td with e | ri
      · rw [hri] at h
        simp at h
      · rw [hri] at h
        dsimp only at h
        rcases hact : calculateActivityScore O ch td with e | act
        · rw [hact] at h
          simp at h
        · rw [hact] at h
          dsimp only at h
          simp only [Except.ok.injEq, Prod.mk.injEq] at h
          obtain ⟨hs, hc⟩ := h
          subst hs
          subst hc
          rw [hds2]

theorem priorityInner_stable (O : AnalyticOracle) (cache : BenchmarkCache) (ic : String)
    (ch market : List Event) (td : Option ℤ) (pc : ℚ × PriorityComponents)
    (c2 : BenchmarkCache)
    (h : calculatePriorityInner O cache ic ch market td = .ok (pc, c2)) :
    calculatePriorityInner O c2 ic ch market td = .ok (pc, c2) := by
  simp only [calculatePriorityInner] at h ⊢
  rcases htn : calculateTimingNeed O (ch.filter (fun e => e.itemCode = ic)) none td
    with e | tn
  · rw [htn] at h
    simp at h
  · rw [htn] at h
    dsimp only at h
    dsimp only
    rcases hcv : calculateCustomerValue O cache ch (ch.filter (fun e => e.itemCode = ic))
      market td with e | cv
    · rw [hcv] at h
      simp at h
    · rw [hcv] at h
      dsimp only at h
      have hcv2 : calculateCustomerValue O cv.2 ch (ch.filter (fun e => e.itemCode = ic))
          market td = .ok (cv.1, cv.2) :=
        customerValue_stable O cache ch (ch.filter (fun e => e.itemCode = ic)) market td
          cv.1 cv.2 (by rw [hcv])
      simp only [Except.ok.injEq, Prod.mk.injEq] at h
      obtain ⟨hp, hc⟩ := h
      subst hc
      rw [hcv2]
      dsimp only
      rw [hp]

theorem priorityInner_ok_shape (O : AnalyticOracle) (cache : BenchmarkCache) (ic : String)
    (ch market : List Event) (td : Option ℤ) (pc : ℚ × PriorityComponents)
    (c2 : BenchmarkCache)
    (h : calculatePriorityInner O cache ic ch market td = .ok (pc, c2)) :
    ∃ x, pc.1 = round2 (max 0 (min 100 x)) := by
  simp only [calculatePriorityInner] at h
  rcases htn : calculateTimingNeed O (ch.filter (fun e => e.itemCode = ic)) none td
    with e | tn
  · rw [htn] at h
    simp at h
  · rw [htn] at h
    dsimp only at h
    rcases hcv : calculateCustomerValue O cache ch (ch.filter (fun e => e.itemCode = ic))
      market td with e | cv
    · rw [hcv] at h
      simp at h
    · rw [hcv] at h
      dsimp only at h
      simp only [Except.ok.injEq, Prod.mk.injEq] at h
      obtain ⟨hp, hc⟩ := h
      exact ⟨_, by rw [← hp]⟩

theorem priority_bounds_aux (O : AnalyticOracle) (cache : BenchmarkCache)
    (cc ic : String) (ch market : List Event) (td : Option ℤ) :
    0 ≤ (calculatePriority O cache cc ic ch market td).1.1 ∧
      (calculatePriority O cache cc ic ch market td).1.1 ≤ 100 := by
  unfold calculatePriority
  rcases hinner : calculatePriorityInner O cache ic ch market td with e | pc2
  · exact ⟨le_refl 0, by norm_num⟩
  · obtain ⟨x, hx⟩ := priorityInner_ok_shape O cache ic ch market td pc2.1 pc2.2
      (by rw [hinner])
    dsimp only
    rw [hx]
    exact round2_clamp_bounds x

/-- C2: the priority returned by calculate_priority always lies in [0, 100],
and calling it again with identical inputs and the same target date, passing
the benchmark cache that the first call returned, yields the identical
priority value: the only mutable state is the market-benchmark cache, and a
second call with the same date reuses (or deterministically recomputes) the
same benchmark, so there is no hidden time-of-day dependency. -/
theorem priority_in_range_and_repeatable (O : AnalyticOracle) (cache : BenchmarkCache)
    (customerCode itemCode : String) (customerHistory market : List Event)
    (targetDate : Option ℤ) :
    0 ≤ (calculatePriority O cache customerCode itemCode customerHistory market
        targetDate).1.1 ∧
      (calculatePriority O cache customerCode itemCode customerHistory market
        targetDate).1.1 ≤ 100 ∧
      (calculatePriority O
          (calculatePriority O cache customerCode itemCode customerHistory market
            targetDate).2
          customerCode itemCode customerHistory market targetDate).1.1 =
        (calculatePriority O cache customerCode itemCode customerHistory market
          targetDate).1.1 := by
  obtain ⟨hb0, hb1⟩ := priority_bounds_aux O cache customerCode itemCode customerHistory
    market targetDate
  refine ⟨hb0, hb1, ?_⟩
  unfold calculatePriority
  rcases hinner : calculatePriorityInner O cache itemCode customerHistory market targetDate
    with e | pc2
  · dsimp only
    rw [hinner]
  · dsimp only
    have hstable := priorityInner_stable O cache itemCode customerHistory market targetDate
      pc2.1 pc2.2 (by rw [hinner])
    rw [hstable]

end Yaumi
